/-
  Verification of the token-budget-enforced parquet query/introspection layer:
  a shallow embedding of `src/project/plugins/parquet_tools.py`,
  `src/project/plugins/get_schema.py` and
  `src/project/plugins/list_tables_in_directory.py`, with theorems settling
  the frozen claims about path normalization, result serialization, token
  budget enforcement, table registration, row truncation, error
  classification, per-file probe isolation and connection discipline.
-/
import Mathlib

set_option maxHeartbeats 1000000
set_option maxRecDepth 8192

/-! ### Basic character and string utilities

Python strings are sequences of Unicode code points; Lean `String.data` is
the matching `List Char`.  `len(s)` is `String.length` (= `s.data.length`).
-/

/-- The whitespace characters `json.loads` skips between JSON tokens
(space, tab, newline, carriage return). -/
def isJsonWs (c : Char) : Bool :=
  c = ' ' || c = '\t' || c = '\n' || c = '\r'

/-- ASCII lowering of one character, modelling Python `str.lower()` on the
ASCII error messages the query engine produces. -/
def lowerChar (c : Char) : Char :=
  if 'A' ≤ c ∧ c ≤ 'Z' then Char.ofNat (c.toNat + 32) else c

/-- `s.lower()` on ASCII text. -/
def lowerStr (s : String) : String :=
  String.mk (s.data.map lowerChar)

/-- Does `hay` start with `needle`?  (Executable helper for the substring
check below.) -/
def startsWithL : List Char → List Char → Bool
  | [], _ => true
  | _ :: _, [] => false
  | a :: as, b :: bs => a = b && startsWithL as bs

/-- Does `needle` occur as a contiguous substring of `hay`?  Models Python's
`needle in hay` on strings. -/
def containsL (hay needle : List Char) : Bool :=
  match hay with
  | [] => needle.isEmpty
  | _ :: rest => startsWithL needle hay || containsL rest needle

/-- Python `needle in hay` for strings. -/
def containsStrB (hay needle : String) : Bool :=
  containsL hay.data needle.data

/-- Propositional form of "t occurs as a substring of s". -/
def ContainsStr (s t : String) : Prop :=
  ∃ p q : String, s = p ++ t ++ q

theorem containsStr_of_append (p t q : String) : ContainsStr (p ++ t ++ q) t :=
  ⟨p, q, rfl⟩

/-! ### Decimal rendering of naturals and integers

Python's `str(n)` / f-string interpolation of an `int` prints the usual
decimal form.  `natDigitsAux` mirrors the fuel-based digit accumulation of
decimal printing; the fuel `n + 1` always suffices (proved below).
-/

/-- Accumulate the decimal digits of `n` in front of `acc`; `fuel` bounds the
recursion depth (structural, hence kernel-reducible). -/
def natDigitsAux : Nat → Nat → List Char → List Char
  | 0, _, acc => acc
  | fuel + 1, n, acc =>
      if n < 10 then Nat.digitChar n :: acc
      else natDigitsAux fuel (n / 10) (Nat.digitChar (n % 10) :: acc)

/-- The decimal digit list of `n`. -/
def natDigitsN (n : Nat) : List Char := natDigitsAux (n + 1) n []

/-- Python `str(n)` for a natural number. -/
def natRepr (n : Nat) : String := String.mk (natDigitsN n)

/-- Python `str(n)` for an `int`. -/
def intRepr (n : Int) : String :=
  if n < 0 then "-" ++ natRepr n.natAbs else natRepr n.natAbs

example : natRepr 105 = "105" := by decide
example : natRepr 0 = "0" := by decide
example : intRepr (-42) = "-42" := by decide

theorem natDigitsAux_append (fuel n : Nat) (acc : List Char) :
    natDigitsAux fuel n acc = natDigitsAux fuel n [] ++ acc := by
  induction fuel generalizing n acc with
  | zero => simp [natDigitsAux]
  | succ f ih =>
    by_cases h : n < 10
    · simp [natDigitsAux, h]
    · rw [natDigitsAux, if_neg h, natDigitsAux, if_neg h,
        ih (n / 10) (Nat.digitChar (n % 10) :: acc),
        ih (n / 10) [Nat.digitChar (n % 10)]]
      simp

theorem natDigitsAux_fuel_irrel (f g n : Nat) (hf0 : 0 < f) (hg0 : 0 < g)
    (hf : n < 10 ^ f) (hg : n < 10 ^ g) :
    natDigitsAux f n [] = natDigitsAux g n [] := by
  induction f generalizing g n with
  | zero => omega
  | succ f ih =>
    match g with
    | 0 => omega
    | g + 1 =>
      by_cases h : n < 10
      · simp [natDigitsAux, h]
      · have hf10 : 0 < f := by
          by_contra hc
          have : f = 0 := by omega
          subst this
          simp at hf
          omega
        have hg10 : 0 < g := by
          by_contra hc
          have : g = 0 := by omega
          subst this
          simp at hg
          omega
        have hdiv : n / 10 < 10 ^ f := by
          rw [Nat.div_lt_iff_lt_mul (by norm_num)]
          calc n < 10 ^ (f + 1) := hf
            _ = 10 ^ f * 10 := by ring
        have hdiv' : n / 10 < 10 ^ g := by
          rw [Nat.div_lt_iff_lt_mul (by norm_num)]
          calc n < 10 ^ (g + 1) := hg
            _ = 10 ^ g * 10 := by ring
        rw [natDigitsAux, if_neg h, natDigitsAux, if_neg h,
          natDigitsAux_append, natDigitsAux_append,
          ih g (n / 10) hf10 hg10 hdiv hdiv']
        rw [List.append_nil]
        exact (natDigitsAux_append g (n / 10) [Nat.digitChar (n % 10)]).symm

theorem lt_ten_pow_succ (n : Nat) : n < 10 ^ (n + 1) := by
  calc n < n + 1 := Nat.lt_succ_self n
    _ < 2 ^ (n + 1) := Nat.lt_two_pow (n + 1)
    _ ≤ 10 ^ (n + 1) := Nat.pow_le_pow_left (by norm_num) _

theorem lt_ten_pow_self (n : Nat) : n < 10 ^ n := by
  calc n < 2 ^ n := Nat.lt_two_pow n
    _ ≤ 10 ^ n := Nat.pow_le_pow_left (by norm_num) _

theorem natDigitsN_small (n : Nat) (h : n < 10) : natDigitsN n = [Nat.digitChar n] := by
  rw [natDigitsN, natDigitsAux, if_pos h]

theorem natDigitsN_step (n : Nat) (h : ¬ n < 10) :
    natDigitsN n = natDigitsN (n / 10) ++ [Nat.digitChar (n % 10)] := by
  have hn1 : 1 ≤ n := by omega
  have hdivlt : n / 10 < n := Nat.div_lt_self (by omega) (by norm_num)
  have hdiv : n / 10 < 10 ^ n := lt_of_lt_of_le hdivlt (le_of_lt (lt_ten_pow_self n))
  obtain ⟨m, rfl⟩ : ∃ m, n = m + 1 := ⟨n - 1, by omega⟩
  rw [natDigitsN, natDigitsAux, if_neg h, natDigitsAux_append]
  congr 1
  calc natDigitsAux (m + 1) ((m + 1) / 10) []
      = natDigitsAux ((m + 1) / 10 + 1) ((m + 1) / 10) [] := by
        apply natDigitsAux_fuel_irrel _ _ _ (by omega) (by omega)
        · exact hdiv
        · exact lt_ten_pow_succ _
    _ = natDigitsN ((m + 1) / 10) := rfl

theorem digitChar_inj_aux : ∀ a < 10, ∀ b < 10,
    Nat.digitChar a = Nat.digitChar b → a = b := by decide

theorem digitChar_inj_lt (a b : Nat) (ha : a < 10) (hb : b < 10)
    (h : Nat.digitChar a = Nat.digitChar b) : a = b :=
  digitChar_inj_aux a ha b hb h

theorem natDigitsN_ne_nil (n : Nat) : natDigitsN n ≠ [] := by
  by_cases h : n < 10
  · simp [natDigitsN_small n h]
  · simp [natDigitsN_step n h]

theorem natDigitsN_inj (a b : Nat) (h : natDigitsN a = natDigitsN b) : a = b := by
  induction a using Nat.strong_induction_on generalizing b with
  | _ a ih =>
    by_cases ha : a < 10 <;> by_cases hb : b < 10
    · rw [natDigitsN_small a ha, natDigitsN_small b hb] at h
      exact digitChar_inj_lt a b ha hb (by simpa using h)
    · rw [natDigitsN_small a ha, natDigitsN_step b hb] at h
      have := natDigitsN_ne_nil (b / 10)
      rcases List.exists_cons_of_ne_nil this with ⟨c, cs, hc⟩
      rw [hc] at h
      simp at h
    · rw [natDigitsN_step a ha, natDigitsN_small b hb] at h
      have := natDigitsN_ne_nil (a / 10)
      rcases List.exists_cons_of_ne_nil this with ⟨c, cs, hc⟩
      rw [hc] at h
      simp at h
    · rw [natDigitsN_step a ha, natDigitsN_step b hb] at h
      have h2 := congrArg List.reverse h
      simp at h2
      obtain ⟨hlast, hinit⟩ := h2
      have hmod : a % 10 = b % 10 :=
        digitChar_inj_lt _ _ (Nat.mod_lt _ (by norm_num)) (Nat.mod_lt _ (by norm_num)) hlast
      have hdivs : a / 10 = b / 10 := by
        apply ih (a / 10) (Nat.div_lt_self (by omega) (by norm_num))
        have := congrArg List.reverse hinit
        simpa using this
      omega

theorem natRepr_inj (a b : Nat) (h : natRepr a = natRepr b) : a = b := by
  apply natDigitsN_inj
  have := congrArg String.data h
  simpa [natRepr] using this

/-- Every decimal digit list starts with a decimal digit character. -/
theorem natDigitsN_head_digit (n : Nat) :
    ∃ d cs, d < 10 ∧ natDigitsN n = Nat.digitChar d :: cs := by
  induction n using Nat.strong_induction_on with
  | _ n ih =>
    by_cases h : n < 10
    · exact ⟨n, [], h, by rw [natDigitsN_small n h]⟩
    · obtain ⟨d, cs, hd, hrec⟩ := ih (n / 10) (Nat.div_lt_self (by omega) (by norm_num))
      exact ⟨d, cs ++ [Nat.digitChar (n % 10)], hd, by
        rw [natDigitsN_step n h, hrec]; simp⟩

/-! ### Python values

`PyVal` covers the value shapes flowing through the plugins: the
JSON-representable scalars (`None`, `bool`, `int`, `str`), the temporal
scalars the query engine returns for DATE / TIME / TIMESTAMP columns
(`datetime.date`, `datetime.time`, naive `datetime.datetime`, with
microseconds), and nested `list` / `dict` containers (dict keys are strings,
in insertion order, as Python preserves them).
-/

inductive PyVal where
  | none
  | bool (b : Bool)
  | int (n : Int)
  | str (s : String)
  | date (y m d : Nat)
  | time (h mi s micro : Nat)
  | datetime (y mo d h mi s micro : Nat)
  | list (xs : List PyVal)
  | dict (fields : List (String × PyVal))

/-- Left-pad the decimal form of `n` with zeros to width `w`. -/
def padZeros (w n : Nat) : String :=
  String.mk (List.replicate (w - (natRepr n).length) '0') ++ natRepr n

/-- `datetime.isoformat()` for a naive datetime: `YYYY-MM-DDTHH:MM:SS`,
with `.ffffff` appended when the microsecond field is nonzero. -/
def datetimeIso (y mo d h mi s micro : Nat) : String :=
  padZeros 4 y ++ "-" ++ padZeros 2 mo ++ "-" ++ padZeros 2 d ++ "T" ++
    padZeros 2 h ++ ":" ++ padZeros 2 mi ++ ":" ++ padZeros 2 s ++
    (if micro = 0 then "" else "." ++ padZeros 6 micro)

/-- `date.isoformat()`: `YYYY-MM-DD`. -/
def dateIso (y m d : Nat) : String :=
  padZeros 4 y ++ "-" ++ padZeros 2 m ++ "-" ++ padZeros 2 d

example : datetimeIso 2024 5 1 9 30 5 0 = "2024-05-01T09:30:05" := by decide

/-! ### The result serializer: `_serialize_datetime`
(`parquet_tools.py` lines 21-30)

```
def _serialize_datetime(obj):
    if isinstance(obj, datetime):
        return obj.isoformat()
    elif isinstance(obj, dict):
        return {key: _serialize_datetime(value) for key, value in obj.items()}
    elif isinstance(obj, list):
        return [_serialize_datetime(item) for item in obj]
    else:
        return obj
```

Note `isinstance(obj, datetime)` is true only for `datetime.datetime`
instances: `datetime.date` and `datetime.time` values are NOT instances of
`datetime` (in Python, `datetime` is a subclass of `date`, not the other way
round), so the first branch does not fire for them and they fall through to
the final `else` unchanged.
-/

mutual

def serialize_datetime : PyVal → PyVal
  | .datetime y mo d h mi s micro => .str (datetimeIso y mo d h mi s micro)
  | .dict kvs => .dict (serializeFields kvs)
  | .list xs => .list (serializeItems xs)
  | v => v

def serializeItems : List PyVal → List PyVal
  | [] => []
  | x :: xs => serialize_datetime x :: serializeItems xs

def serializeFields : List (String × PyVal) → List (String × PyVal)
  | [] => []
  | (k, v) :: kvs => (k, serialize_datetime v) :: serializeFields kvs

end

mutual

/-- `v` contains no `datetime.datetime` value anywhere. -/
def dtFree : PyVal → Bool
  | .datetime .. => false
  | .dict kvs => dtFreeFields kvs
  | .list xs => dtFreeItems xs
  | _ => true

/-- All items are `datetime`-free. -/
def dtFreeItems : List PyVal → Bool
  | [] => true
  | x :: xs => dtFree x && dtFreeItems xs

/-- All field values are `datetime`-free. -/
def dtFreeFields : List (String × PyVal) → Bool
  | [] => true
  | (_, v) :: kvs => dtFree v && dtFreeFields kvs

end

mutual

/-- `v` is serializable by `json.dumps`: it contains no temporal scalar
(Python's `json.dumps` raises `TypeError` on `date`, `time` and `datetime`
objects, which have no default JSON encoding). -/
def jsonSafe : PyVal → Bool
  | .date .. => false
  | .time .. => false
  | .datetime .. => false
  | .dict kvs => jsonSafeFields kvs
  | .list xs => jsonSafeItems xs
  | _ => true

/-- All items are JSON-serializable. -/
def jsonSafeItems : List PyVal → Bool
  | [] => true
  | x :: xs => jsonSafe x && jsonSafeItems xs

/-- All field values are JSON-serializable. -/
def jsonSafeFields : List (String × PyVal) → Bool
  | [] => true
  | (_, v) :: kvs => jsonSafe v && jsonSafeFields kvs

end

/-- The keys of a Python dict value, in order (`list(d.keys())`). -/
def dictKeys : PyVal → List String
  | .dict kvs => kvs.map Prod.fst
  | _ => []

/-! ### `json.dumps(value, ensure_ascii=False, indent=2)`

Python's pretty printer with a two-space indent: empty containers print as
`[]` / `\x7b\x7d` without newlines; a non-empty container opens its bracket,
then prints each entry on its own line at the next indent level, separated
by `,`, and closes the bracket on a fresh line at the current level.  With
`ensure_ascii=False`, non-ASCII characters are kept raw; `"`, `\\` and the
control characters below U+0020 are escaped (`\n`, `\t`, `\r`, `\b`, `\f`
by name, the rest as `\u00XX`).

`dumpsTotal` is total: its value on the temporal scalars (where the real
`json.dumps` raises `TypeError`) is irrelevant and guarded everywhere by
`jsonSafe`; `pyJsonDumps` packages the guard, returning `Except` like the
raising Python call.
-/

/-- JSON string escaping of one character (`ensure_ascii=False`). -/
def escChar (c : Char) : List Char :=
  if c = '"' then ['\\', '"']
  else if c = '\\' then ['\\', '\\']
  else if c = '\n' then ['\\', 'n']
  else if c = '\t' then ['\\', 't']
  else if c = '\r' then ['\\', 'r']
  else if c = '\x08' then ['\\', 'b']
  else if c = '\x0c' then ['\\', 'f']
  else if c.toNat < 0x20 then
    ['\\', 'u', '0', '0', Nat.digitChar (c.toNat / 16), Nat.digitChar (c.toNat % 16)]
  else [c]

/-- A JSON string literal: quote, escaped characters, quote. -/
def strLit (s : String) : String :=
  "\"" ++ String.mk (s.data.flatMap escChar) ++ "\""

/-- The indentation prefix at nesting level `lvl` (two spaces per level). -/
def indentStr (lvl : Nat) : String := String.mk (List.replicate (2 * lvl) ' ')

mutual

/-- Serialize one value at nesting level `lvl`. -/
def dumpsVal : Nat → PyVal → String
  | _, .none => "null"
  | _, .bool true => "true"
  | _, .bool false => "false"
  | _, .int n => intRepr n
  | _, .str s => strLit s
  | _, .date .. => "null"
  | _, .time .. => "null"
  | _, .datetime .. => "null"
  | _, .list [] => "[]"
  | lvl, .list (x :: xs) =>
      "[\n" ++ indentStr (lvl + 1) ++ dumpsVal (lvl + 1) x ++
        dumpsItems (lvl + 1) xs ++ "\n" ++ indentStr lvl ++ "]"
  | _, .dict [] => "\x7b\x7d"
  | lvl, .dict ((k, v) :: kvs) =>
      "\x7b\n" ++ indentStr (lvl + 1) ++ strLit k ++ ": " ++ dumpsVal (lvl + 1) v ++
        dumpsFields (lvl + 1) kvs ++ "\n" ++ indentStr lvl ++ "\x7d"

/-- Remaining list items, each preceded by `,\n` and the indent. -/
def dumpsItems : Nat → List PyVal → String
  | _, [] => ""
  | lvl, x :: xs => ",\n" ++ indentStr lvl ++ dumpsVal lvl x ++ dumpsItems lvl xs

/-- Remaining dict fields, each preceded by `,\n` and the indent. -/
def dumpsFields : Nat → List (String × PyVal) → String
  | _, [] => ""
  | lvl, (k, v) :: kvs =>
      ",\n" ++ indentStr lvl ++ strLit k ++ ": " ++ dumpsVal lvl v ++ dumpsFields lvl kvs

end

/-- `json.dumps(v, ensure_ascii=False, indent=2)`: raises `TypeError`
(modelled as `Except.error`) when `v` holds a temporal scalar. -/
def pyJsonDumps (v : PyVal) : Except Unit String :=
  if jsonSafe v then .ok (dumpsVal 0 v) else .error ()

example : dumpsVal 0 (.list []) = "[]" := by decide

/-! ### Counting the elements of a JSON array payload

`_enforce_token_limit` computes `len(json.loads(payload))` when the payload
starts with `[`.  `pyLoadsTopLen` models that call for the payload shapes
this development reasons about: the exact outputs of `pyJsonDumps` (the only
payloads the plugins construct — proved below to be counted exactly), empty
arrays padded with JSON whitespace, and strings whose brackets never close
(where `json.loads` raises, modelled as `Except.error`).  It scans the
string with a depth / in-string / escape automaton and counts the commas at
nesting depth 1 outside string literals — on well-formed input, exactly the
top-level element separators.
-/

structure ScanSt where
  depth : Nat
  inStr : Bool
  esc : Bool
  commas : Nat
deriving DecidableEq, Repr

/-- One step of the JSON structure scan. -/
def scanStep (st : ScanSt) (c : Char) : ScanSt :=
  if st.inStr then
    if st.esc then { st with esc := false }
    else if c = '\\' then { st with esc := true }
    else if c = '"' then { st with inStr := false }
    else st
  else
    if c = '"' then { st with inStr := true }
    else if c = '[' ∨ c = '\x7b' then { st with depth := st.depth + 1 }
    else if c = ']' ∨ c = '\x7d' then { st with depth := st.depth - 1 }
    else if c = ',' ∧ st.depth = 1 then { st with commas := st.commas + 1 }
    else st

/-- Scan a whole character list from the initial state. -/
def scanJson (cs : List Char) : ScanSt :=
  cs.foldl scanStep ⟨0, false, false, 0⟩

/-- `len(json.loads(payload))` for a payload starting with `[` (see the
section comment for the modelled scope).  `Except.error` models a raised
`json.JSONDecodeError`. -/
def pyLoadsTopLen (s : String) : Except Unit Nat :=
  if s.data.head? = some '[' then
    let fin := scanJson s.data
    if fin.depth ≠ 0 ∨ fin.inStr then .error ()
    else if ((s.data.drop 1).dropWhile isJsonWs).head? = some ']' then .ok 0
    else .ok (fin.commas + 1)
  else .error ()

/-! ### The token budget enforcer
(`parquet_tools.py` lines 33-74; `get_schema.py` and
`list_tables_in_directory.py` carry copies that differ only in omitting the
`suggestion` field from the warning object.)

```
def _estimate_token_count(text: str) -> int:
    average_chars_per_token = 3
    return (len(text) + average_chars_per_token - 1) // average_chars_per_token
```
-/

def TOKEN_LIMIT : Nat := 5000

/-- `_estimate_token_count`: `(len(text) + 2) // 3`, i.e. `ceil(len/3)`. -/
def estimate_token_count (text : String) : Nat :=
  (text.length + 3 - 1) / 3

/-! ### Binary64 arithmetic for the suggested-limit computation

`_enforce_token_limit` computes
`suggested_limit = max(1, int(current_size * ratio * 0.8))` with
`ratio = TOKEN_LIMIT / token_estimate` in IEEE-754 double (binary64)
arithmetic.  A binary64 value is a dyadic rational `m * 2^e`; each
operation below takes exact rational inputs and rounds to nearest, ties to
even, which is exactly CPython's behaviour for `int / int` true division,
`int`-to-`float` conversion and `float` multiplication.  The model covers
the normal range, which contains every reachable input: CPython string
lengths stay below `2^63`, so `token_estimate < 2^62`, the ratio exceeds
`2^(-50)`, and all intermediate values lie far from the subnormal and
overflow thresholds.
-/

/-- Fuel-based `floor(log2 n)` (kernel-reducible; fuel `n` suffices). -/
def natLog2Aux : Nat → Nat → Nat
  | 0, _ => 0
  | fuel + 1, n => if 2 ≤ n then natLog2Aux fuel (n / 2) + 1 else 0

/-- `floor(log2 n)` for `n ≥ 1`. -/
def natLog2 (n : Nat) : Nat := natLog2Aux n n

example : natLog2 1 = 0 ∧ natLog2 2 = 1 ∧ natLog2 5000 = 12 := by decide

/-- Round `N / D` (with `D > 0`) to the nearest integer, ties to even. -/
def rnd2even (N D : Nat) : Nat :=
  let q := N / D
  let r := N % D
  if 2 * r < D then q
  else if D < 2 * r then q + 1
  else if q % 2 = 0 then q else q + 1

/-- Is `2^k ≤ a / b`? -/
def pow2LeRat (k : Int) (a b : Nat) : Bool :=
  if 0 ≤ k then b * 2 ^ k.toNat ≤ a else b ≤ a * 2 ^ (-k).toNat

/-- The binary64 (round-to-nearest, ties-to-even) value of the rational
`a / b` (`b > 0`), as a dyadic pair `(m, e)` denoting `m * 2^e`: the
exponent `e` is chosen so that the scaled value `(a/b) * 2^(-e)` lies in
`[2^52, 2^53)`, and that scaled mantissa is rounded to the nearest
integer, ties to even.  (Normal range only; see the section comment.) -/
def flRat (a b : Nat) : Nat × Int :=
  if a = 0 then (0, 0)
  else
    let la : Int := natLog2 a
    let lb : Int := natLog2 b
    let e : Int := if pow2LeRat (la - lb) a b then la - lb - 52 else la - lb - 53
    (rnd2even (a * 2 ^ (-e).toNat) (b * 2 ^ e.toNat), e)

/-- Binary64 product of two dyadic values: the exact product, rounded. -/
def flMulD (x y : Nat × Int) : Nat × Int :=
  flRat (x.1 * y.1 * 2 ^ (x.2 + y.2).toNat) (2 ^ (-(x.2 + y.2)).toNat)

/-- `int(x)` on a nonnegative double: truncation, i.e. the floor of the
dyadic value. -/
def floorD (x : Nat × Int) : Nat :=
  x.1 * 2 ^ x.2.toNat / 2 ^ (-x.2).toNat

/-- `max(1, int(current_size * ratio * 0.8))` exactly as CPython evaluates
it: `ratio = TOKEN_LIMIT / token_estimate` is the correctly rounded double
quotient, `current_size` is converted to double, each of the two
left-associated products rounds after multiplying, the literal `0.8`
denotes the double nearest `4/5`, and `int` truncates the (nonnegative)
result. -/
def suggestedLimitFloat (n est : Nat) : Nat :=
  let ratio := flRat 5000 est
  let prod1 := flMulD (flRat n 1) ratio
  let prod2 := flMulD prod1 (flRat 4 5)
  max 1 (floorD prod2)

/- Spot checks against CPython (`max(1, int(n * (5000/est) * 0.8))`).
At `n = 77, est = 9625` the exact value `77 * 4000 / 9625 = 32` is an
integer, but the three double roundings land just below it and CPython
returns 31 — the double computation is not the exact floor. -/
example : suggestedLimitFloat 77 9625 = 31 := by decide
example : 4000 * 77 / 9625 = 32 := by decide
example : suggestedLimitFloat 1 5003 = 1 := by decide
example : suggestedLimitFloat 3 5001 = 2 := by decide
example : suggestedLimitFloat 1000 15000 = 266 := by decide
example : suggestedLimitFloat 123456 789123 = 625 := by decide

/-- The warning object `_enforce_token_limit` serializes in place of an
oversized payload.  `suggestion` is the joined suggestion text of the
`parquet_tools.py` copy; the other two copies omit that field
(`suggestion = Option.none`). -/
structure OverflowReport where
  error : String
  context : String
  estimated_tokens : Nat
  token_limit : Nat
  rows_returned : Option Nat
  suggested_limit : Option Nat
  suggestion : Option String
deriving Repr

/-- Which branch `_enforce_token_limit` returned: the payload itself
(`pass`, under budget) or the freshly serialized warning (`overflow`). -/
inductive BudgetDecision where
  | pass (payload : String)
  | overflow (report : OverflowReport)
deriving Repr

/-- The `suggestion` text of the `parquet_tools.py` copy:
`"\n".join(suggestion_parts)` with the LIMIT hint inserted when
`suggested_limit` is truthy. -/
def suggestionText (suggested_limit : Option Nat) : String :=
  "The query result is too large. Please adjust your query:\n" ++
  "  • Reduce the LIMIT value" ++
    (match suggested_limit with
     | some n => " (try LIMIT " ++ natRepr n ++ ")"
     | none => "") ++ "\n" ++
  "  • Filter rows with WHERE clauses to reduce result size\n" ++
  "  • Select only necessary columns instead of SELECT *\n" ++
  "  • Use aggregation (COUNT, SUM, AVG) instead of retrieving raw rows"

/-- Does the payload start with `[`?  (Python `payload.startswith("[")`.) -/
def startsWithBracket (s : String) : Bool :=
  s.data.head? = some '['

/-- `_enforce_token_limit(payload, context)` of `parquet_tools.py`.

The source computes `suggested_limit = max(1, int(current_size * ratio *
0.8))` with `ratio = TOKEN_LIMIT / token_estimate` in IEEE-754 double
arithmetic, modelled bit-exactly by `suggestedLimitFloat`.  The truthiness
test `if current_size:` means a parsed length of `0` (like `None`) leaves
`suggested_limit = None`.  The final `json.dumps(warning, ...)`
serialization of the warning is kept structured as
`BudgetDecision.overflow`; `Except.error` models the `json.JSONDecodeError`
escaping from `json.loads(payload)`. -/
def enforce_token_limit (payload context : String) : Except Unit BudgetDecision :=
  let token_estimate := estimate_token_count payload
  if token_estimate ≤ TOKEN_LIMIT then .ok (.pass payload)
  else
    (if startsWithBracket payload then
        (pyLoadsTopLen payload).map Option.some
      else .ok Option.none).map fun current_size =>
      let suggested_limit : Option Nat :=
        match current_size with
        | some n => if n ≠ 0 then some (suggestedLimitFloat n token_estimate) else Option.none
        | none => Option.none
      .overflow
        { error := "Result exceeds token budget"
          context := context
          estimated_tokens := token_estimate
          token_limit := TOKEN_LIMIT
          rows_returned := current_size
          suggested_limit := suggested_limit
          suggestion := some (suggestionText suggested_limit) }

/-- The `_enforce_token_limit` copy of `list_tables_in_directory.py` (and of
`get_schema.py`): identical except that the warning has no `suggestion`
field. -/
def enforce_token_limit_lt (payload context : String) : Except Unit BudgetDecision :=
  (enforce_token_limit payload context).map fun d =>
    match d with
    | .pass p => .pass p
    | .overflow r => .overflow { r with suggestion := Option.none }

/-! ### The path normalizer
(`parquet_tools.py` lines 110-122; same pattern in the other two plugins)

```
file_path_obj = Path(file_path)
if file_path_obj.is_absolute():
    try:
        file_path = str(file_path_obj.relative_to(cwd))
    except ValueError:
        file_path = str(file_path_obj)
```

A `pathlib.Path` is modelled by its anchor (`absolute`) and its component
list (`parts`, without the root entry).  `Path.relative_to(base)` succeeds
exactly when `base`'s anchor and parts are a prefix of the path's, returning
the relative path made of the remaining components; otherwise it raises
`ValueError` (modelled as `Option.none`).
-/

structure PyPath where
  absolute : Bool
  parts : List String
deriving DecidableEq, Repr

/-- Is `pre` a (component-wise) prefix of `l`? -/
def partsHavePre : List String → List String → Bool
  | [], _ => true
  | _ :: _, [] => false
  | a :: as, b :: bs => a = b && partsHavePre as bs

/-- `p.relative_to(base)`; `Option.none` models the raised `ValueError`. -/
def relative_to (p base : PyPath) : Option PyPath :=
  if p.absolute = base.absolute && partsHavePre base.parts p.parts then
    some ⟨false, p.parts.drop base.parts.length⟩
  else Option.none

/-- The normalization step applied to each supplied path. -/
def normalizePath (cwd p : PyPath) : PyPath :=
  if p.absolute then
    match relative_to p cwd with
    | some r => r
    | none => p
  else p

/-- `os.path`-style join of a base directory and a relative path (the
specification's `join(cwd, R)`). -/
def joinPath (base r : PyPath) : PyPath :=
  ⟨base.absolute, base.parts ++ r.parts⟩

/-! ### The table registrar
(`parquet_tools.py` lines 124-133)

```
for file_path in parquet_files:
    base_name = Path(file_path).stem
    table_name = base_name
    counter = 1
    while table_name in table_names:
        table_name = f"\x7bbase_name\x7d_\x7bcounter\x7d"
        counter += 1
    table_names.add(table_name)
    conn.execute(f"CREATE VIEW ... read_parquet('\x7bfile_path\x7d')")
```
-/

/-- The final path component (after the last `/`). -/
def lastComp (cs : List Char) : List Char :=
  cs.foldl (fun acc c => if c = '/' then [] else acc ++ [c]) []

/-- The index of the last `.` in `name`, or `Option.none`
(Python `name.rfind('.')` returning -1). -/
def lastDotIdx (name : List Char) : Option Nat :=
  (List.range name.length).foldl
    (fun acc i => if name.get? i = some '.' then some i else acc) Option.none

/-- `pathlib.PurePath.stem`: the final component without its suffix.  The
suffix starts at the last dot, provided that dot is neither the first nor
past the last character of the name. -/
def pyStem (path : String) : String :=
  let name := lastComp path.data
  match lastDotIdx name with
  | some i => if 0 < i ∧ i < name.length - 1 then String.mk (name.take i) else String.mk name
  | none => String.mk name

example : pyStem "data/a.parquet" = "a" := by decide
example : pyStem "archive.tar.gz" = "archive.tar" := by decide
example : pyStem ".hidden" = ".hidden" := by decide

/-- The candidate name `f"\x7bbase\x7d_\x7bcounter\x7d"`. -/
def mkCand (base : String) (counter : Nat) : String :=
  base ++ "_" ++ natRepr counter

/-- The `while table_name in table_names` search, with explicit fuel (the
loop tries counters `c, c+1, ...`; fuel `|used| + 1` always reaches a free
candidate, as proved below). -/
def tryCounter (used : List String) (base : String) : Nat → Nat → String
  | 0, c => mkCand base c
  | fuel + 1, c =>
      let cand := mkCand base c
      if cand ∈ used then tryCounter used base fuel (c + 1) else cand

/-- The name assigned to one file given the names already used. -/
def freshName (used : List String) (base : String) : String :=
  if base ∈ used then tryCounter used base (used.length + 1) 1 else base

/-- The registrar: assign each file, in input order, a table name derived
from its stem, suffixing `_1`, `_2`, ... on collision with the accumulated
`table_names` set (modelled as the list of names assigned so far). -/
def registerGo (used : List String) : List String → List String
  | [] => []
  | f :: fs =>
      let name := freshName used (pyStem f)
      name :: registerGo (name :: used) fs

/-- The table names assigned by the registrar, in input order. -/
def registerTables (files : List String) : List String :=
  registerGo [] files

/-! ### Engine error classification
(`parquet_tools.py` lines 153-175)

On an engine exception the plugin inspects `str(e).lower()` and re-raises a
`RuntimeError` whose message carries the query text and the registered
table names.
-/

inductive EngKind where
  | sqlErr
  | tableErr
  | genericErr
deriving DecidableEq, Repr

/-- `", ".join(names)`. -/
def joinComma : List String → String
  | [] => ""
  | [x] => x
  | x :: xs => x ++ ", " ++ joinComma xs

/-- `', '.join(table_names) if table_names else 'None'`.  (`table_names` is
a Python set; the model renders the names in registration order.) -/
def availTables (tableNames : List String) : String :=
  match tableNames with
  | [] => "None"
  | _ => joinComma tableNames

/-- The error classification and re-raised message of the query plugin's
`except Exception` handler. -/
def classifyEngineError (errMsg query : String) (tableNames : List String) :
    EngKind × String :=
  let low := lowerStr errMsg
  let avail := availTables tableNames
  if containsStrB low "syntax error" || containsStrB low "parser error" then
    (.sqlErr,
      "SQL syntax error in query: " ++ errMsg ++ "\n" ++
      "Query: " ++ query ++ "\n" ++
      "Available tables: " ++ avail ++ "\n" ++
      "Tip: Use 'get_schema' to check column names before querying.")
  else if containsStrB low "catalog" || containsStrB low "table" then
    (.tableErr,
      "Table reference error: " ++ errMsg ++ "\n" ++
      "Query: " ++ query ++ "\n" ++
      "Available tables: " ++ avail ++ "\n" ++
      "Make sure table names in your query match the registered table names.")
  else
    (.genericErr,
      "Query execution failed: " ++ errMsg ++ "\n" ++
      "Query: " ++ query ++ "\n" ++
      "Available tables: " ++ avail)

/-! ### Row truncation in the query plugin
(`parquet_tools.py` lines 140-148)

```
rows = [dict(zip(columns, row, strict=False)) for row in result]
serialized_rows = _serialize_datetime(rows)
if len(serialized_rows) > limit:
    serialized_rows = serialized_rows[:limit]
result_json = json.dumps(serialized_rows, ensure_ascii=False, indent=2)
return _enforce_token_limit(result_json, "query_parquet_files")
```

`limit` is a Python `int`, so the slice `serialized_rows[:limit]` follows
Python slice semantics: for `limit >= 0` it keeps the first `limit`
elements; for `limit < 0` it keeps all but the last `|limit|` elements.
-/

/-- Python `xs[:i]` for an arbitrary integer `i`. -/
def pySliceTo (xs : List PyVal) (i : Int) : List PyVal :=
  if 0 ≤ i then xs.take i.toNat
  else xs.take (xs.length - (-i).toNat)

/-- The `if len(serialized_rows) > limit: serialized_rows[:limit]` step. -/
def applyLimit (rows : List PyVal) (limit : Int) : List PyVal :=
  if (rows.length : Int) > limit then pySliceTo rows limit else rows

/-- The success path of `query_parquet_files` from the engine's rows on:
serialize (`_serialize_datetime`), truncate to `limit`, JSON-encode. -/
def qpfResultJson (rows : List PyVal) (limit : Int) : Except Unit String :=
  pyJsonDumps (.list (applyLimit (serializeItems rows) limit))

/-- ... and hand the JSON to the budget enforcer. -/
def qpfResult (rows : List PyVal) (limit : Int) : Except Unit BudgetDecision :=
  (qpfResultJson rows limit).bind fun j => enforce_token_limit j "query_parquet_files"

/-! ### Connections and the directory-listing plugin
(`list_tables_in_directory.py` lines 50-111,
`parquet_tools.py` lines 106-177, `get_schema.py` lines 70-106)

Engine connections are modelled by an event trace: `openConn i` /
`closeConn i` record `duckdb.connect(":memory:")` and `conn.close()` for
the `i`-th connection a call opens.  The engine's behaviour is an oracle:
for the directory listing, each file carries the outcome of its probe
(`Except.ok (row_count, column_count)` or the text of the raised
exception); for the query and schema plugins the body's outcome is an
arbitrary `Except` value.

`query_parquet_files` and `get_schema` open their connection and run the
body inside `try ... finally: conn.close()`, so the close event is emitted
on every outcome.  In `list_tables_in_directory` the per-file connection is
opened *inside* the `try` block and closed only by the explicit
`conn.close()` on the success path; the `except` handler appends the error
entry without closing, and there is no `finally`.
-/

inductive ConnEvent where
  | openConn (i : Nat)
  | closeConn (i : Nat)
deriving DecidableEq, Repr

/-- `conn = duckdb.connect(...); try: body finally: conn.close()`: the
shape of the query and schema plugins.  The trace is the same for every
body outcome; the outcome itself is propagated. -/
def scopedConnRun (body : Except String Unit) : List ConnEvent × Except String Unit :=
  ([.openConn 0, .closeConn 0], body)

/-- Every opened connection in the trace is closed: open and close events
balance index-wise. -/
def balancedEvents (es : List ConnEvent) : Prop :=
  ∀ i, es.count (.openConn i) = es.count (.closeConn i)

/-- One file of a directory listing: its name, its (already normalized)
path string, and the outcome of probing it through a fresh connection. -/
structure ProbeFile where
  name : String
  path : String
  probe : Except String (Nat × Nat)

/-- The success entry appended for a probed file
(`row_count` first of the probe pair, `column_count` second). -/
def okEntry (f : ProbeFile) (rc cc : Nat) : PyVal :=
  .dict [("filename", .str f.name), ("path", .str f.path),
         ("row_count", .int rc), ("column_count", .int cc)]

/-- The error entry appended when the probe raises. -/
def errEntry (f : ProbeFile) (e : String) : PyVal :=
  .dict [("filename", .str f.name), ("path", .str f.path), ("error", .str e)]

/-- The per-file loop of `list_tables_in_directory`: connection events and
`files_info` entries, in filesystem-enumeration order.  On `Except.ok` the
loop emits open, probe, close, entry; on `Except.error` the `except`
handler emits the error entry — with no close event for the connection the
`try` block opened. -/
def listTablesGo (i : Nat) : List ProbeFile → List ConnEvent × List PyVal
  | [] => ([], [])
  | f :: fs =>
      let rest := listTablesGo (i + 1) fs
      match f.probe with
      | .ok (rc, cc) => (.openConn i :: .closeConn i :: rest.1, okEntry f rc cc :: rest.2)
      | .error e => (.openConn i :: rest.1, errEntry f e :: rest.2)

/-- The loop from the first file. -/
def listTablesRun (files : List ProbeFile) : List ConnEvent × List PyVal :=
  listTablesGo 0 files

/-- The full `list_tables_in_directory` call: the existence and
directory-type checks, the loop, then
`_enforce_token_limit(json.dumps(files_info, ...), ...)`.  The `Except
String` layer models the `FileNotFoundError` / `ValueError` raised for a
missing or non-directory path. -/
def list_tables_in_directory (dirExists isDirectory : Bool) (files : List ProbeFile) :
    Except String (List ConnEvent × Except Unit BudgetDecision) :=
  if ¬ dirExists then .error "FileNotFoundError"
  else if ¬ isDirectory then .error "ValueError"
  else
    let run := listTablesRun files
    .ok (run.1, (pyJsonDumps (.list run.2)).bind fun j =>
      enforce_token_limit_lt j "list_tables_in_directory")

/-! ### Lemmas and claim theorems -/

theorem partsHavePre_append_drop (as bs : List String)
    (h : partsHavePre as bs = true) : as ++ bs.drop as.length = bs := by
  induction as generalizing bs with
  | nil => simp
  | cons a as ih =>
    cases bs with
    | nil => simp [partsHavePre] at h
    | cons b bs =>
      simp only [partsHavePre, Bool.and_eq_true, decide_eq_true_eq] at h
      obtain ⟨rfl, h2⟩ := h
      simp [ih bs h2]

/-- C5: for every absolute path `P` under the working directory `cwd`, the
normalization step returns a relative path `R` with `join(cwd, R) = P`; for
every absolute path not under `cwd` and for every already-relative path it
returns the path unchanged. -/
theorem c5_normalize_paths (cwd p : PyPath) (hcwd : cwd.absolute = true) :
    ((p.absolute = true ∧ partsHavePre cwd.parts p.parts = true) →
        (normalizePath cwd p).absolute = false ∧
        joinPath cwd (normalizePath cwd p) = p) ∧
    ((p.absolute = true ∧ partsHavePre cwd.parts p.parts = false) →
        normalizePath cwd p = p) ∧
    (p.absolute = false → normalizePath cwd p = p) := by
  refine ⟨fun ⟨habs, hpre⟩ => ?_, fun ⟨habs, hpre⟩ => ?_, fun hrel => ?_⟩
  · have hrt : relative_to p cwd = some ⟨false, p.parts.drop cwd.parts.length⟩ := by
      simp [relative_to, habs, hcwd, hpre]
    constructor
    · simp [normalizePath, habs, hrt]
    · simp only [normalizePath, habs, if_true, hrt, joinPath]
      cases p with
      | mk pabs pparts =>
        simp only [PyPath.mk.injEq]
        exact ⟨hcwd ▸ habs.symm ▸ rfl, partsHavePre_append_drop _ _ hpre⟩
  · have hrt : relative_to p cwd = Option.none := by
      simp [relative_to, hpre]
    simp [normalizePath, habs, hrt]
  · simp [normalizePath, hrel]

/-- C5 witness: a concrete absolute file under a concrete working
directory round-trips through normalization and join. -/
theorem c5_normalize_paths_witness :
    (normalizePath ⟨true, ["home", "user"]⟩
        ⟨true, ["home", "user", "data", "f.parquet"]⟩).absolute = false ∧
    joinPath ⟨true, ["home", "user"]⟩
        (normalizePath ⟨true, ["home", "user"]⟩
          ⟨true, ["home", "user", "data", "f.parquet"]⟩) =
      ⟨true, ["home", "user", "data", "f.parquet"]⟩ :=
  (c5_normalize_paths ⟨true, ["home", "user"]⟩
    ⟨true, ["home", "user", "data", "f.parquet"]⟩ (by decide)).1 ⟨by decide, by decide⟩

theorem mkCand_inj (base : String) (k1 k2 : Nat) (h : mkCand base k1 = mkCand base k2) :
    k1 = k2 := by
  apply natDigitsN_inj
  have hd := congrArg String.data h
  simp only [mkCand, String.data_append] at hd
  have := List.append_cancel_left hd
  simpa [natRepr] using this

theorem tryCounter_spec (used : List String) (base : String) :
    ∀ fuel c, (∃ k, c ≤ k ∧ k < c + fuel ∧ mkCand base k ∉ used) →
      ∃ k, c ≤ k ∧ tryCounter used base fuel c = mkCand base k ∧
        mkCand base k ∉ used ∧ ∀ j, c ≤ j → j < k → mkCand base j ∈ used := by
  intro fuel
  induction fuel with
  | zero =>
    intro c ⟨k, hk1, hk2, _⟩
    omega
  | succ f ih =>
    intro c ⟨k, hk1, hk2, hk3⟩
    by_cases hc : mkCand base c ∈ used
    · have hkc : k ≠ c := fun hkc => hk3 (hkc ▸ hc)
      obtain ⟨k', h1, h2, h3, h4⟩ := ih (c + 1) ⟨k, by omega, by omega, hk3⟩
      refine ⟨k', by omega, ?_, h3, ?_⟩
      · rw [tryCounter, if_pos hc]
        exact h2
      · intro j hj1 hj2
        rcases Nat.eq_or_lt_of_le hj1 with rfl | hlt
        · exact hc
        · exact h4 j hlt hj2
    · exact ⟨c, le_refl c, by rw [tryCounter, if_neg hc], hc, fun j hj1 hj2 => by omega⟩

theorem exists_free_cand (used : List String) (base : String) :
    ∃ k, 1 ≤ k ∧ k < 1 + (used.length + 1) ∧ mkCand base k ∉ used := by
  by_contra hall
  push_neg at hall
  set L : List String :=
    (List.range (used.length + 1)).map (fun i => mkCand base (i + 1)) with hL
  have hnd : L.Nodup := by
    apply List.Nodup.map
    · intro i j hij
      have := mkCand_inj base (i + 1) (j + 1) hij
      omega
    · exact List.nodup_range _
  have hsub : ∀ x ∈ L, x ∈ used := by
    intro x hx
    rw [hL] at hx
    simp only [List.mem_map, List.mem_range] at hx
    obtain ⟨i, hi, rfl⟩ := hx
    exact hall (i + 1) (by omega) (by omega)
  have hcard : L.length ≤ used.length := by
    have h1 : L.toFinset.card = L.length := List.toFinset_card_of_nodup hnd
    have h2 : L.toFinset ⊆ used.toFinset := by
      intro x hx
      rw [List.mem_toFinset] at hx ⊢
      exact hsub x hx
    have h3 : L.toFinset.card ≤ used.toFinset.card := Finset.card_le_card h2
    have h4 : used.toFinset.card ≤ used.length := used.toFinset_card_le
    omega
  rw [hL] at hcard
  simp at hcard

theorem freshName_spec (used : List String) (base : String) :
    freshName used base ∉ used ∧
    (base ∉ used → freshName used base = base) ∧
    (base ∈ used → ∃ k, 1 ≤ k ∧ freshName used base = mkCand base k ∧
      mkCand base k ∉ used ∧ ∀ j, 1 ≤ j → j < k → mkCand base j ∈ used) := by
  by_cases hb : base ∈ used
  · obtain ⟨k, hk1, hk2, hk3⟩ := exists_free_cand used base
    obtain ⟨k', h1, h2, h3, h4⟩ :=
      tryCounter_spec used base (used.length + 1) 1 ⟨k, hk1, by omega, hk3⟩
    refine ⟨?_, fun h => absurd hb h, fun _ => ⟨k', h1, ?_, h3, h4⟩⟩
    · rw [freshName, if_pos hb, h2]
      exact h3
    · rw [freshName, if_pos hb]
      exact h2
  · exact ⟨by rw [freshName, if_neg hb]; exact hb,
      fun _ => by rw [freshName, if_neg hb], fun h => absurd h hb⟩

theorem registerGo_length (used : List String) (files : List String) :
    (registerGo used files).length = files.length := by
  induction files generalizing used with
  | nil => rfl
  | cons f fs ih => simp [registerGo, ih]

theorem registerGo_nodup (used : List String) (files : List String) :
    (registerGo used files).Nodup ∧ ∀ n ∈ registerGo used files, n ∉ used := by
  induction files generalizing used with
  | nil => simp [registerGo]
  | cons f fs ih =>
    obtain ⟨ihn, ihm⟩ := ih (freshName used (pyStem f) :: used)
    have hfresh := (freshName_spec used (pyStem f)).1
    constructor
    · rw [registerGo, List.nodup_cons]
      refine ⟨fun hmem => ?_, ihn⟩
      exact (ihm _ hmem) (List.mem_cons_self _ _)
    · intro n hn
      rw [registerGo, List.mem_cons] at hn
      rcases hn with rfl | hn
      · exact hfresh
      · intro hu
        exact (ihm n hn) (List.mem_cons_of_mem _ hu)

/-- C6: the registrar assigns, in input order, each file its base name
without extension, appending `_1`, `_2`, ... on collision until the name is
unused (and the suffix chosen is the least such); the resulting names are
pairwise distinct within the call, and the inputs
`["a.parquet", "a.parquet", "b.parquet"]` receive `["a", "a_1", "b"]` in
that order. -/
theorem c6_register_tables :
    (∀ files : List String, (registerTables files).length = files.length ∧
      (registerTables files).Nodup) ∧
    (∀ (used : List String) (base : String),
      freshName used base ∉ used ∧
      (base ∉ used → freshName used base = base) ∧
      (base ∈ used → ∃ k, 1 ≤ k ∧ freshName used base = mkCand base k ∧
        mkCand base k ∉ used ∧ ∀ j, 1 ≤ j → j < k → mkCand base j ∈ used)) ∧
    registerTables ["a.parquet", "a.parquet", "b.parquet"] = ["a", "a_1", "b"] :=
  ⟨fun files => ⟨registerGo_length [] files, (registerGo_nodup [] files).1⟩,
    fun used base => freshName_spec used base, by decide⟩

theorem containsStr_iff_data (s t : String) :
    ContainsStr s t ↔ ∃ p q : List Char, s.data = p ++ t.data ++ q := by
  constructor
  · rintro ⟨p, q, rfl⟩
    exact ⟨p.data, q.data, by simp [String.data_append]⟩
  · rintro ⟨p, q, h⟩
    refine ⟨String.mk p, String.mk q, ?_⟩
    apply String.ext
    simp [String.data_append, h]

theorem containsStr_trans (s m t : String)
    (h1 : ContainsStr s m) (h2 : ContainsStr m t) : ContainsStr s t := by
  rw [containsStr_iff_data] at h1 h2 ⊢
  obtain ⟨p1, q1, e1⟩ := h1
  obtain ⟨p2, q2, e2⟩ := h2
  exact ⟨p1 ++ p2, q2 ++ q1, by simp [e1, e2]⟩

theorem containsStr_refl (s : String) : ContainsStr s s := by
  rw [containsStr_iff_data]
  exact ⟨[], [], by simp⟩

theorem joinComma_contains (ts : List String) (t : String) (ht : t ∈ ts) :
    ContainsStr (joinComma ts) t := by
  induction ts with
  | nil => cases ht
  | cons x xs ih =>
    cases xs with
    | nil =>
      rcases List.mem_cons.mp ht with rfl | h
      · exact containsStr_refl t
      · cases h
    | cons y ys =>
      rcases List.mem_cons.mp ht with rfl | h
      · rw [containsStr_iff_data]
        exact ⟨[], (", " ++ joinComma (y :: ys)).data, by
          simp [joinComma, String.data_append]⟩
      · have := ih h
        rw [containsStr_iff_data] at this ⊢
        obtain ⟨p, q, e⟩ := this
        exact ⟨(x ++ ", ").data ++ p, q, by
          simp [joinComma, String.data_append, e]⟩

theorem availTables_contains (ts : List String) (t : String) (ht : t ∈ ts) :
    ContainsStr (availTables ts) t := by
  cases ts with
  | nil => cases ht
  | cons x xs => exact joinComma_contains (x :: xs) t ht

/-- C8: engine failures are categorized by case-insensitive substring match
on the error text — "syntax error" / "parser error" first (SQL-syntax),
then "catalog" / "table" (table-reference), else generic — and every
category's message contains the literal query text and the registered table
names. -/
theorem c8_classify_engine_error (errMsg query : String) (tableNames : List String) :
    ((classifyEngineError errMsg query tableNames).1 = .sqlErr ↔
      (containsStrB (lowerStr errMsg) "syntax error" = true ∨
       containsStrB (lowerStr errMsg) "parser error" = true)) ∧
    ((classifyEngineError errMsg query tableNames).1 = .tableErr ↔
      (¬ (containsStrB (lowerStr errMsg) "syntax error" = true ∨
          containsStrB (lowerStr errMsg) "parser error" = true) ∧
       (containsStrB (lowerStr errMsg) "catalog" = true ∨
        containsStrB (lowerStr errMsg) "table" = true))) ∧
    ((classifyEngineError errMsg query tableNames).1 = .genericErr ↔
      (¬ (containsStrB (lowerStr errMsg) "syntax error" = true ∨
          containsStrB (lowerStr errMsg) "parser error" = true) ∧
       ¬ (containsStrB (lowerStr errMsg) "catalog" = true ∨
          containsStrB (lowerStr errMsg) "table" = true))) ∧
    ContainsStr (classifyEngineError errMsg query tableNames).2 query ∧
    ContainsStr (classifyEngineError errMsg query tableNames).2 (availTables tableNames) ∧
    (∀ t, t ∈ tableNames → ContainsStr (classifyEngineError errMsg query tableNames).2 t) := by
  have havail : ∀ t, t ∈ tableNames →
      ContainsStr (availTables tableNames) t := fun t ht =>
    availTables_contains tableNames t ht
  by_cases hA : (containsStrB (lowerStr errMsg) "syntax error" ||
      containsStrB (lowerStr errMsg) "parser error") = true
  · have hmsg : classifyEngineError errMsg query tableNames =
        (.sqlErr,
          "SQL syntax error in query: " ++ errMsg ++ "\n" ++
          "Query: " ++ query ++ "\n" ++
          "Available tables: " ++ availTables tableNames ++ "\n" ++
          "Tip: Use 'get_schema' to check column names before querying.") := by
      rw [classifyEngineError]
      simp only [hA, if_true]
    rw [hmsg]
    have hq : ContainsStr (classifyEngineError errMsg query tableNames).2 query := by
      rw [hmsg, containsStr_iff_data]
      exact ⟨("SQL syntax error in query: " ++ errMsg ++ "\n" ++ "Query: ").data,
        ("\n" ++ "Available tables: " ++ availTables tableNames ++ "\n" ++
          "Tip: Use 'get_schema' to check column names before querying.").data,
        by simp [String.data_append]⟩
    have ha : ContainsStr (classifyEngineError errMsg query tableNames).2
        (availTables tableNames) := by
      rw [hmsg, containsStr_iff_data]
      exact ⟨("SQL syntax error in query: " ++ errMsg ++ "\n" ++ "Query: " ++ query ++
          "\n" ++ "Available tables: ").data,
        ("\n" ++ "Tip: Use 'get_schema' to check column names before querying.").data,
        by simp [String.data_append]⟩
    rw [hmsg] at hq ha
    rw [Bool.or_eq_true] at hA
    refine ⟨by simp [hA], by simp [hA], by simp [hA], hq, ha, ?_⟩
    intro t ht
    exact containsStr_trans _ _ _ ha (havail t ht)
  · by_cases hB : (containsStrB (lowerStr errMsg) "catalog" ||
        containsStrB (lowerStr errMsg) "table") = true
    · have hmsg : classifyEngineError errMsg query tableNames =
          (.tableErr,
            "Table reference error: " ++ errMsg ++ "\n" ++
            "Query: " ++ query ++ "\n" ++
            "Available tables: " ++ availTables tableNames ++ "\n" ++
            "Make sure table names in your query match the registered table names.") := by
        rw [classifyEngineError]
        simp only [hA, hB, if_true, if_false, Bool.false_eq_true]
      have hq : ContainsStr (classifyEngineError errMsg query tableNames).2 query := by
        rw [hmsg, containsStr_iff_data]
        exact ⟨("Table reference error: " ++ errMsg ++ "\n" ++ "Query: ").data,
          ("\n" ++ "Available tables: " ++ availTables tableNames ++ "\n" ++
            "Make sure table names in your query match the registered table names.").data,
          by simp [String.data_append]⟩
      have ha : ContainsStr (classifyEngineError errMsg query tableNames).2
          (availTables tableNames) := by
        rw [hmsg, containsStr_iff_data]
        exact ⟨("Table reference error: " ++ errMsg ++ "\n" ++ "Query: " ++ query ++
            "\n" ++ "Available tables: ").data,
          ("\n" ++
            "Make sure table names in your query match the registered table names.").data,
          by simp [String.data_append]⟩
      rw [Bool.or_eq_true] at hA hB
      rw [hmsg] at hq ha ⊢
      refine ⟨by simp [hA], by simp [hA, hB], by simp [hB], hq, ha, ?_⟩
      intro t ht
      exact containsStr_trans _ _ _ ha (havail t ht)
    · have hmsg : classifyEngineError errMsg query tableNames =
          (.genericErr,
            "Query execution failed: " ++ errMsg ++ "\n" ++
            "Query: " ++ query ++ "\n" ++
            "Available tables: " ++ availTables tableNames) := by
        rw [classifyEngineError]
        simp only [hA, hB, if_false, Bool.false_eq_true]
      have hq : ContainsStr (classifyEngineError errMsg query tableNames).2 query := by
        rw [hmsg, containsStr_iff_data]
        exact ⟨("Query execution failed: " ++ errMsg ++ "\n" ++ "Query: ").data,
          ("\n" ++ "Available tables: " ++ availTables tableNames).data,
          by simp [String.data_append]⟩
      have ha : ContainsStr (classifyEngineError errMsg query tableNames).2
          (availTables tableNames) := by
        rw [hmsg, containsStr_iff_data]
        exact ⟨("Query execution failed: " ++ errMsg ++ "\n" ++ "Query: " ++ query ++
            "\n" ++ "Available tables: ").data, [],
          by simp [String.data_append]⟩
      rw [Bool.or_eq_true] at hA hB
      rw [hmsg] at hq ha ⊢
      refine ⟨by simp [hA], by simp [hA, hB], by simp [hA, hB], hq, ha, ?_⟩
      intro t ht
      exact containsStr_trans _ _ _ ha (havail t ht)

/-- C2: evaluation of `_serialize_datetime` at a row holding a DATE and a
TIME value: both pass through unchanged (neither becomes a string, so the
subsequent `json.dumps` raises `TypeError`), while a TIMESTAMP
(`datetime.datetime`) value is converted to its ISO-8601 form.  The
`isinstance(obj, datetime)` test matches only `datetime.datetime`:
`datetime.date` and `datetime.time` fall through to the identity branch. -/
theorem c2_serialize_datetime_misses_date_time :
    serialize_datetime (.dict [("d", .date 2024 5 1), ("t", .time 9 30 0 0)]) =
      .dict [("d", .date 2024 5 1), ("t", .time 9 30 0 0)] ∧
    (∀ s : String, PyVal.date 2024 5 1 ≠ .str s) ∧
    (∀ s : String, PyVal.time 9 30 0 0 ≠ .str s) ∧
    jsonSafe (.dict [("d", .date 2024 5 1), ("t", .time 9 30 0 0)]) = false ∧
    serialize_datetime (.datetime 2024 5 1 9 30 5 0) = .str "2024-05-01T09:30:05" := by
  refine ⟨?_, fun s => by simp, fun s => by simp, ?_, ?_⟩
  · rfl
  · rfl
  · rfl

/-- The entry the per-file loop emits for one file. -/
def listEntrySpec (f : ProbeFile) : PyVal :=
  match f.probe with
  | .ok (rc, cc) => okEntry f rc cc
  | .error e => errEntry f e

/-- Did the probe succeed? -/
def probeOk (r : Except String (Nat × Nat)) : Bool :=
  match r with
  | .ok _ => true
  | .error _ => false

theorem listTablesGo_entries (i : Nat) (files : List ProbeFile) :
    (listTablesGo i files).2 = files.map listEntrySpec := by
  induction files generalizing i with
  | nil => rfl
  | cons f fs ih =>
    rw [listTablesGo]
    match hp : f.probe with
    | .ok (rc, cc) => simp [hp, ih (i + 1), listEntrySpec]
    | .error e => simp [hp, ih (i + 1), listEntrySpec]

/-- C9: each directory entry reports, in filesystem-enumeration order,
either `row_count`/`column_count` (probe succeeded, no `error` field) or
`error` (probe failed, no `row_count`/`column_count` field); a failing file
contributes its own entry without suppressing any other file's entry. -/
theorem c9_per_file_isolation (files : List ProbeFile) :
    (listTablesRun files).2 = files.map listEntrySpec ∧
    (listTablesRun files).2.length = files.length ∧
    (∀ f : ProbeFile, ∀ rc cc, f.probe = .ok (rc, cc) →
      dictKeys (listEntrySpec f) = ["filename", "path", "row_count", "column_count"] ∧
      "error" ∉ dictKeys (listEntrySpec f)) ∧
    (∀ f : ProbeFile, ∀ e, f.probe = .error e →
      dictKeys (listEntrySpec f) = ["filename", "path", "error"] ∧
      "row_count" ∉ dictKeys (listEntrySpec f) ∧
      "column_count" ∉ dictKeys (listEntrySpec f)) := by
  refine ⟨listTablesGo_entries 0 files, ?_, ?_, ?_⟩
  · show (listTablesGo 0 files).2.length = files.length
    rw [listTablesGo_entries 0 files]
    simp
  · intro f rc cc hp
    simp [listEntrySpec, hp, okEntry, dictKeys]
  · intro f e hp
    simp [listEntrySpec, hp, errEntry, dictKeys]

/-- Did the probe of the `k`-th file succeed?  (`false` past the end.) -/
def probeOkAt : List ProbeFile → Nat → Bool
  | [], _ => false
  | f :: _, 0 => probeOk f.probe
  | _ :: fs, k + 1 => probeOkAt fs k

theorem listTablesGo_count_open (files : List ProbeFile) :
    ∀ i j, (listTablesGo i files).1.count (.openConn j) =
      (if i ≤ j ∧ j < i + files.length then 1 else 0) := by
  induction files with
  | nil =>
    intro i j
    simp only [listTablesGo, List.length_nil, List.count_nil, Nat.add_zero]
    rw [if_neg]
    omega
  | cons f fs ih =>
    intro i j
    rw [listTablesGo]
    have hco : (ConnEvent.closeConn i = ConnEvent.openConn j) ↔ False := by simp
    have hoo : (ConnEvent.openConn i = ConnEvent.openConn j) ↔ (i = j) := by simp
    have hsplit : ∀ p : Prop, (i = j → p) → (i ≠ j →
        (((i + 1 ≤ j ∧ j < i + 1 + fs.length) ↔
          (i ≤ j ∧ j < i + (fs.length + 1))) → p)) → p := by
      intro p h1 h2
      by_cases hij : i = j
      · exact h1 hij
      · refine h2 hij ?_
        constructor
        · rintro ⟨a, b⟩
          exact ⟨by omega, by omega⟩
        · rintro ⟨a, b⟩
          exact ⟨by omega, by omega⟩
    match hp : f.probe with
    | .ok (rc, cc) =>
      apply hsplit
      · rintro rfl
        have h1 : ((i + 1 ≤ i ∧ i < i + 1 + fs.length) ↔ False) := by
          simp only [iff_false]
          intro ⟨a, _⟩
          omega
        have h2 : ((i ≤ i ∧ i < i + (fs.length + 1)) ↔ True) := by
          simp only [iff_true]
          exact ⟨le_refl i, by omega⟩
        simp only [List.count_cons, ih (i + 1) i, beq_iff_eq, hco, hoo, h1, h2,
          if_false, if_true, List.length_cons]
      · intro hij hiff
        have hoo2 : (i = j) ↔ False := by simp [hij]
        simp only [List.count_cons, ih (i + 1) j, beq_iff_eq, hco, hoo, hoo2, hiff,
          if_false, List.length_cons]
        simp
    | .error e =>
      apply hsplit
      · rintro rfl
        have h1 : ((i + 1 ≤ i ∧ i < i + 1 + fs.length) ↔ False) := by
          simp only [iff_false]
          intro ⟨a, _⟩
          omega
        have h2 : ((i ≤ i ∧ i < i + (fs.length + 1)) ↔ True) := by
          simp only [iff_true]
          exact ⟨le_refl i, by omega⟩
        simp only [List.count_cons, ih (i + 1) i, beq_iff_eq, hoo, h1, h2,
          if_false, if_true, List.length_cons]
      · intro hij hiff
        have hoo2 : (i = j) ↔ False := by simp [hij]
        simp only [List.count_cons, ih (i + 1) j, beq_iff_eq, hoo, hoo2, hiff,
          if_false, List.length_cons]
        simp

theorem listTablesGo_count_close (files : List ProbeFile) :
    ∀ i j, (listTablesGo i files).1.count (.closeConn j) =
      (if i ≤ j ∧ j < i + files.length ∧ probeOkAt files (j - i) = true then 1 else 0) := by
  induction files with
  | nil => intro i j; simp [listTablesGo, probeOkAt]
  | cons f fs ih =>
    intro i j
    rw [listTablesGo]
    have hoc : (ConnEvent.openConn i = ConnEvent.closeConn j) ↔ False := by simp
    rcases Nat.lt_trichotomy i j with hlt | heq | hgt
    · have hcc : (ConnEvent.closeConn i = ConnEvent.closeConn j) ↔ False := by
        simp only [ConnEvent.closeConn.injEq, iff_false]
        omega
      have hpo : probeOkAt (f :: fs) (j - i) = probeOkAt fs (j - (i + 1)) := by
        obtain ⟨m, hm⟩ : ∃ m, j - i = m + 1 := ⟨j - i - 1, by omega⟩
        rw [hm, probeOkAt]
        congr 1
        omega
      have hiff : (i + 1 ≤ j ∧ j < i + 1 + fs.length ∧
            probeOkAt fs (j - (i + 1)) = true) ↔
          (i ≤ j ∧ j < i + (fs.length + 1) ∧ probeOkAt (f :: fs) (j - i) = true) := by
        rw [hpo]
        constructor
        · rintro ⟨h1, h2, h3⟩
          exact ⟨by omega, by omega, h3⟩
        · rintro ⟨h1, h2, h3⟩
          exact ⟨by omega, by omega, h3⟩
      match hp : f.probe with
      | .ok (rc, cc) =>
        simp only [List.count_cons, ih (i + 1) j, beq_iff_eq, hoc, hcc, if_false,
          List.length_cons, hiff, Nat.add_zero]
      | .error e =>
        simp only [List.count_cons, ih (i + 1) j, beq_iff_eq, hoc, if_false,
          List.length_cons, hiff, Nat.add_zero]
    · subst heq
      have h0 : i - i = 0 := by omega
      have htail : ((i + 1 ≤ i ∧ i < i + 1 + fs.length ∧
          probeOkAt fs (i - (i + 1)) = true) ↔ False) := by
        simp only [iff_false]
        intro ⟨h1, _⟩
        omega
      match hp : f.probe with
      | .ok (rc, cc) =>
        have hcc : (ConnEvent.closeConn i = ConnEvent.closeConn i) ↔ True := by simp
        have hpos : (i ≤ i ∧ i < i + (fs.length + 1) ∧
            probeOkAt (f :: fs) (i - i) = true) ↔ True := by
          simp only [iff_true]
          exact ⟨le_refl i, by omega, by simp [h0, probeOkAt, probeOk, hp]⟩
        simp only [List.count_cons, ih (i + 1) i, beq_iff_eq, hoc, hcc, htail,
          if_false, if_true, List.length_cons, hpos]
      | .error e =>
        have hneg : (i ≤ i ∧ i < i + (fs.length + 1) ∧
            probeOkAt (f :: fs) (i - i) = true) ↔ False := by
          simp only [iff_false]
          intro ⟨_, _, h3⟩
          rw [h0] at h3
          simp [probeOkAt, probeOk, hp] at h3
        simp only [List.count_cons, ih (i + 1) i, beq_iff_eq, hoc, htail,
          if_false, List.length_cons, hneg]
    · have hcc : (ConnEvent.closeConn i = ConnEvent.closeConn j) ↔ False := by
        simp only [ConnEvent.closeConn.injEq, iff_false]
        omega
      have h1 : ((i + 1 ≤ j ∧ j < i + 1 + fs.length ∧
          probeOkAt fs (j - (i + 1)) = true) ↔ False) := by
        simp only [iff_false]
        intro ⟨h1, _⟩
        omega
      have h2 : ((i ≤ j ∧ j < i + (fs.length + 1) ∧
          probeOkAt (f :: fs) (j - i) = true) ↔ False) := by
        simp only [iff_false]
        intro ⟨h1, _⟩
        omega
      match hp : f.probe with
      | .ok (rc, cc) =>
        simp only [List.count_cons, ih (i + 1) j, beq_iff_eq, hoc, hcc, h1, h2,
          if_false, List.length_cons]
      | .error e =>
        simp only [List.count_cons, ih (i + 1) j, beq_iff_eq, hoc, h1, h2,
          if_false, List.length_cons]

theorem all_probeOk_iff (files : List ProbeFile) :
    files.all (fun f => probeOk f.probe) = true ↔
      ∀ k, k < files.length → probeOkAt files k = true := by
  induction files with
  | nil => simp
  | cons f fs ih =>
    simp only [List.all_cons, Bool.and_eq_true, ih, List.length_cons]
    constructor
    · rintro ⟨h1, h2⟩ k hk
      cases k with
      | zero => exact h1
      | succ m => exact h2 m (by omega)
    · intro h
      refine ⟨h 0 (by omega), fun k hk => h (k + 1) (by omega)⟩

theorem listTables_balanced_iff (files : List ProbeFile) :
    balancedEvents (listTablesRun files).1 ↔
      files.all (fun f => probeOk f.probe) = true := by
  rw [all_probeOk_iff]
  constructor
  · intro hbal k hk
    have := hbal k
    rw [listTablesRun] at this
    rw [listTablesGo_count_open files 0 k, listTablesGo_count_close files 0 k] at this
    have hk0 : k - 0 = k := by omega
    rw [hk0] at this
    by_cases hok : probeOkAt files k = true
    · exact hok
    · rw [if_pos ⟨by omega, by omega⟩, if_neg (by tauto)] at this
      omega
  · intro hall j
    rw [listTablesRun, listTablesGo_count_open files 0 j, listTablesGo_count_close files 0 j]
    by_cases hr : 0 ≤ j ∧ j < 0 + files.length
    · rw [if_pos hr, if_pos ⟨hr.1, hr.2, by
        have : j - 0 = j := by omega
        rw [this]
        exact hall j (by omega)⟩]
    · rw [if_neg hr, if_neg (by tauto)]

/-- C3: `query_parquet_files` and `get_schema` close their connection on
every outcome (connect, `try ... finally: conn.close()`), but
`list_tables_in_directory` balances opens and closes exactly when every
per-file probe succeeds: a probe failure takes the `except` branch, which
records the error entry without closing the connection the `try` block
opened.  Evaluated at a directory with one corrupt file, the trace is a
single open with no close. -/
theorem c3_connection_leak_on_probe_failure :
    (∀ body : Except String Unit, balancedEvents (scopedConnRun body).1) ∧
    (∀ files : List ProbeFile,
      balancedEvents (listTablesRun files).1 ↔
        files.all (fun f => probeOk f.probe) = true) ∧
    (listTablesRun [⟨"corrupt.parquet", "corrupt.parquet",
        .error "Invalid Input Error: No magic bytes found"⟩]).1 = [.openConn 0] ∧
    (listTablesRun [⟨"corrupt.parquet", "corrupt.parquet",
        .error "Invalid Input Error: No magic bytes found"⟩]).1.count
      (ConnEvent.closeConn 0) = 0 := by
  refine ⟨?_, listTables_balanced_iff, rfl, rfl⟩
  intro body i
  by_cases h : i = 0
  · simp [scopedConnRun, List.count_cons, h]
  · simp [scopedConnRun, List.count_cons, h, Ne.symm h]

/-- C10: an existing directory containing no parquet files raises no error
and returns the two-character JSON text `[]`, which passes budget
enforcement unchanged. -/
theorem c10_empty_directory :
    list_tables_in_directory true true [] = .ok ([], .ok (.pass "[]")) ∧
    dumpsVal 0 (.list []) = "[]" ∧
    estimate_token_count "[]" ≤ TOKEN_LIMIT := by
  exact ⟨rfl, rfl, by decide⟩

theorem serializeItems_length (xs : List PyVal) :
    (serializeItems xs).length = xs.length := by
  induction xs with
  | nil => rfl
  | cons x xs ih => simp [serializeItems, ih]

/-- C7 (amended): for every nonnegative caller-supplied limit the JSON
array handed to budget enforcement holds exactly the first
`min(n, limit)` serialized rows, in engine order — truncation happens after
`_serialize_datetime` and before `_enforce_token_limit`.  (For a negative
`limit`, Python slice semantics keep all but the last `|limit|` rows
instead; see the counterexample.) -/
theorem c7_limit_truncation (rows : List PyVal) (limit : Int) (hl : 0 ≤ limit) :
    applyLimit rows limit = rows.take (min rows.length limit.toNat) ∧
    qpfResultJson rows limit =
      pyJsonDumps (.list ((serializeItems rows).take (min rows.length limit.toNat))) := by
  have key : ∀ xs : List PyVal, applyLimit xs limit = xs.take (min xs.length limit.toNat) := by
    intro xs
    rw [applyLimit]
    by_cases h : (xs.length : Int) > limit
    · rw [if_pos h, pySliceTo, if_pos hl]
      congr 1
      omega
    · rw [if_neg h]
      have : min xs.length limit.toNat = xs.length := by omega
      rw [this, List.take_length]
  refine ⟨key rows, ?_⟩
  rw [qpfResultJson, key (serializeItems rows), serializeItems_length]

/-- C7 counterexample: with two rows and `limit = -1` the code keeps the
first row (Python `rows[:-1]` drops the last element), while the claim's
`min(n, limit)` formula demands zero rows. -/
theorem c7_limit_truncation_counterexample :
    applyLimit [.dict [("a", .int 1)], .dict [("a", .int 2)]] (-1) =
      [.dict [("a", .int 1)]] ∧
    (min (2 : Int) (-1)).toNat = 0 ∧
    applyLimit [.dict [("a", .int 1)], .dict [("a", .int 2)]] (-1) ≠
      ([.dict [("a", .int 1)], .dict [("a", .int 2)]] : List PyVal).take
        (min (2 : Int) (-1)).toNat := by
  have h1 : applyLimit [.dict [("a", PyVal.int 1)], .dict [("a", PyVal.int 2)]] (-1) =
      [.dict [("a", PyVal.int 1)]] := rfl
  have h2 : (([.dict [("a", PyVal.int 1)], .dict [("a", PyVal.int 2)]] : List PyVal).take
      (min (2 : Int) (-1)).toNat) = [] := by
    rw [show (min (2 : Int) (-1)).toNat = 0 from by decide]
    rfl
  refine ⟨h1, by decide, fun h => ?_⟩
  rw [h2] at h
  have := h1.symm.trans h
  simp at this

/-- C7 witness: two rows, `limit = 1`: the enforcer input is the
serialization of just the first row. -/
theorem c7_limit_truncation_witness :
    applyLimit [.dict [("a", .int 1)], .dict [("a", .int 2)]] 1 =
      ([.dict [("a", .int 1)], .dict [("a", .int 2)]] : List PyVal).take
        (min ([.dict [("a", .int 1)], .dict [("a", .int 2)]] : List PyVal).length
          (1 : Int).toNat) ∧
    qpfResultJson [.dict [("a", .int 1)], .dict [("a", .int 2)]] 1 =
      pyJsonDumps (.list ((serializeItems
        [.dict [("a", .int 1)], .dict [("a", .int 2)]]).take
          (min ([.dict [("a", .int 1)], .dict [("a", .int 2)]] : List PyVal).length
            (1 : Int).toNat))) :=
  c7_limit_truncation [.dict [("a", .int 1)], .dict [("a", .int 2)]] 1 (by decide)

/-! ### Scan lemmas: the element count of a serialized array

The automaton `scanStep` leaves the state unchanged across any serialized
value scanned at depth ≥ 1, and counts exactly one comma per top-level
separator of a serialized array.  These lemmas justify that
`pyLoadsTopLen` agrees with `len(json.loads(payload))` on every payload the
plugins build.
-/

/-- Characters that do not change the scan state outside strings (not a
quote, bracket, brace or comma). -/
def scanNeutral (c : Char) : Bool :=
  !(c = '"' || c = '[' || c = '\x7b' || c = ']' || c = '\x7d' || c = ',')

theorem scanStep_out_neutral (d k : Nat) (c : Char) (h : scanNeutral c = true) :
    scanStep ⟨d, false, false, k⟩ c = ⟨d, false, false, k⟩ := by
  simp only [scanNeutral, Bool.not_eq_true', Bool.or_eq_false_iff,
    decide_eq_false_iff_not] at h
  obtain ⟨⟨⟨⟨⟨h1, h2⟩, h3⟩, h4⟩, h5⟩, h6⟩ := h
  simp [scanStep, h1, h2, h3, h4, h5, h6]

theorem scan_neutral_list (cs : List Char) (h : cs.all scanNeutral = true) (d k : Nat) :
    List.foldl scanStep ⟨d, false, false, k⟩ cs = ⟨d, false, false, k⟩ := by
  induction cs with
  | nil => rfl
  | cons c cs ih =>
    rw [List.all_cons, Bool.and_eq_true] at h
    rw [List.foldl_cons, scanStep_out_neutral d k c h.1, ih h.2]

theorem scanStep_openB (d k : Nat) (c : Char) (h : c = '[' ∨ c = '\x7b') :
    scanStep ⟨d, false, false, k⟩ c = ⟨d + 1, false, false, k⟩ := by
  have hq : ¬ c = '"' := by rcases h with rfl | rfl <;> decide
  simp [scanStep, hq, h]

theorem scanStep_closeB (d k : Nat) (c : Char) (h : c = ']' ∨ c = '\x7d') :
    scanStep ⟨d, false, false, k⟩ c = ⟨d - 1, false, false, k⟩ := by
  have hq : ¬ c = '"' := by rcases h with rfl | rfl <;> decide
  have ho : ¬ (c = '[' ∨ c = '\x7b') := by rcases h with rfl | rfl <;> decide
  simp [scanStep, hq, ho, h]

theorem scanStep_comma_deep (d k : Nat) (h : ¬ d = 1) :
    scanStep ⟨d, false, false, k⟩ ',' = ⟨d, false, false, k⟩ := by
  simp [scanStep, h]

theorem scanStep_comma_one (k : Nat) :
    scanStep ⟨1, false, false, k⟩ ',' = ⟨1, false, false, k + 1⟩ := by
  simp [scanStep]

theorem scanStep_quote_out (d k : Nat) :
    scanStep ⟨d, false, false, k⟩ '"' = ⟨d, true, false, k⟩ := by
  simp [scanStep]

theorem scanStep_inStr (d k : Nat) (c : Char) :
    scanStep ⟨d, true, false, k⟩ c =
      (if c = '\\' then ⟨d, true, true, k⟩
       else if c = '"' then ⟨d, false, false, k⟩
       else ⟨d, true, false, k⟩) := by
  by_cases h1 : c = '\\'
  · subst h1
    simp [scanStep]
  · by_cases h2 : c = '"'
    · subst h2
      simp [scanStep]
    · simp [scanStep, h1, h2]

theorem scanStep_esc (d k : Nat) (c : Char) :
    scanStep ⟨d, true, true, k⟩ c = ⟨d, true, false, k⟩ := by
  simp [scanStep]

theorem hexDigit_facts : ∀ m, m < 16 →
    ¬ Nat.digitChar m = '\\' ∧ ¬ Nat.digitChar m = '"' := by decide

theorem scan_escChar (c : Char) (d k : Nat) :
    List.foldl scanStep ⟨d, true, false, k⟩ (escChar c) = ⟨d, true, false, k⟩ := by
  rw [escChar]
  split_ifs with h1 h2 h3 h4 h5 h6 h7 h8
  · simp [scanStep_inStr, scanStep_esc]
  · simp [scanStep_inStr, scanStep_esc]
  · simp [scanStep_inStr, scanStep_esc]
  · simp [scanStep_inStr, scanStep_esc]
  · simp [scanStep_inStr, scanStep_esc]
  · simp [scanStep_inStr, scanStep_esc]
  · simp [scanStep_inStr, scanStep_esc]
  · have hhi := hexDigit_facts (c.toNat / 16) (by omega)
    have hlo := hexDigit_facts (c.toNat % 16) (by omega)
    simp [scanStep_inStr, scanStep_esc, hhi.1, hhi.2, hlo.1, hlo.2]
  · simp [scanStep_inStr, h1, h2]

theorem scan_escBody (cs : List Char) (d k : Nat) :
    List.foldl scanStep ⟨d, true, false, k⟩ (cs.flatMap escChar) = ⟨d, true, false, k⟩ := by
  induction cs with
  | nil => rfl
  | cons c cs ih =>
    rw [List.flatMap_cons, List.foldl_append, scan_escChar c d k, ih]

theorem scan_strLit (s : String) (d k : Nat) :
    List.foldl scanStep ⟨d, false, false, k⟩ (strLit s).data = ⟨d, false, false, k⟩ := by
  rw [strLit]
  simp only [String.data_append]
  rw [List.foldl_append, List.foldl_append]
  have h1 : List.foldl scanStep ⟨d, false, false, k⟩ ("\"").data = ⟨d, true, false, k⟩ := by
    simp [scanStep_quote_out]
  rw [h1]
  have h2 : List.foldl scanStep ⟨d, true, false, k⟩
      (String.mk (s.data.flatMap escChar)).data = ⟨d, true, false, k⟩ :=
    scan_escBody s.data d k
  rw [h2]
  simp [scanStep_inStr]

theorem natDigitsN_chars (n : Nat) :
    ∀ c ∈ natDigitsN n, ∃ m, m < 10 ∧ c = Nat.digitChar m := by
  induction n using Nat.strong_induction_on with
  | _ n ih =>
    by_cases h : n < 10
    · rw [natDigitsN_small n h]
      intro c hc
      rw [List.mem_singleton] at hc
      exact ⟨n, h, hc⟩
    · rw [natDigitsN_step n h]
      intro c hc
      rw [List.mem_append] at hc
      rcases hc with hc | hc
      · exact ih (n / 10) (Nat.div_lt_self (by omega) (by norm_num)) c hc
      · rw [List.mem_singleton] at hc
        exact ⟨n % 10, Nat.mod_lt _ (by norm_num), hc⟩

theorem digit_scanNeutral : ∀ m, m < 10 → scanNeutral (Nat.digitChar m) = true := by decide

theorem scan_intRepr (n : Int) (d k : Nat) :
    List.foldl scanStep ⟨d, false, false, k⟩ (intRepr n).data = ⟨d, false, false, k⟩ := by
  have hdig : ∀ a : Nat, List.foldl scanStep ⟨d, false, false, k⟩ (natRepr a).data =
      ⟨d, false, false, k⟩ := by
    intro a
    apply scan_neutral_list
    rw [List.all_eq_true]
    intro c hc
    obtain ⟨m, hm, rfl⟩ := natDigitsN_chars a c hc
    exact digit_scanNeutral m hm
  rw [intRepr]
  split_ifs with hneg
  · simp only [String.data_append]
    rw [List.foldl_append]
    have hminus : List.foldl scanStep ⟨d, false, false, k⟩ ("-").data =
        ⟨d, false, false, k⟩ := by
      apply scan_neutral_list
      decide
    rw [hminus, hdig]
  · exact hdig n.natAbs

theorem indentStr_all_neutral (lvl : Nat) : (indentStr lvl).data.all scanNeutral = true := by
  rw [indentStr]
  show (List.replicate (2 * lvl) ' ').all scanNeutral = true
  rw [List.all_eq_true]
  intro c hc
  rw [List.eq_of_mem_replicate hc]
  decide

theorem scan_indent (lvl d k : Nat) :
    List.foldl scanStep ⟨d, false, false, k⟩ (indentStr lvl).data = ⟨d, false, false, k⟩ :=
  scan_neutral_list _ (indentStr_all_neutral lvl) d k

mutual

theorem scan_dumpsVal (v : PyVal) (lvl d k : Nat) (hd : 1 ≤ d) :
    List.foldl scanStep ⟨d, false, false, k⟩ (dumpsVal lvl v).data = ⟨d, false, false, k⟩ := by
  match v with
  | .none =>
    show List.foldl scanStep ⟨d, false, false, k⟩ ("null").data = _
    exact scan_neutral_list ("null").data (by decide) d k
  | .bool true =>
    show List.foldl scanStep ⟨d, false, false, k⟩ ("true").data = _
    exact scan_neutral_list ("true").data (by decide) d k
  | .bool false =>
    show List.foldl scanStep ⟨d, false, false, k⟩ ("false").data = _
    exact scan_neutral_list ("false").data (by decide) d k
  | .int n => exact scan_intRepr n d k
  | .str s => exact scan_strLit s d k
  | .date y m dd =>
    show List.foldl scanStep ⟨d, false, false, k⟩ ("null").data = _
    exact scan_neutral_list ("null").data (by decide) d k
  | .time h mi sec micro =>
    show List.foldl scanStep ⟨d, false, false, k⟩ ("null").data = _
    exact scan_neutral_list ("null").data (by decide) d k
  | .datetime y mo dd h mi sec micro =>
    show List.foldl scanStep ⟨d, false, false, k⟩ ("null").data = _
    exact scan_neutral_list ("null").data (by decide) d k
  | .list [] =>
    show List.foldl scanStep _ ['[', ']'] = _
    rw [List.foldl_cons, scanStep_openB d k '[' (Or.inl rfl), List.foldl_cons,
      scanStep_closeB (d + 1) k ']' (Or.inl rfl)]
    rfl
  | .list (x :: xs) =>
    rw [dumpsVal]
    simp only [String.data_append, List.foldl_append]
    rw [show List.foldl scanStep ⟨d, false, false, k⟩ ("[\n").data =
        ⟨d + 1, false, false, k⟩ from by
      rw [show ("[\n").data = ['[', '\n'] from rfl, List.foldl_cons,
        scanStep_openB d k '[' (Or.inl rfl), List.foldl_cons,
        scanStep_out_neutral (d + 1) k '\n' (by decide)]
      rfl]
    rw [scan_indent (lvl + 1) (d + 1) k,
      scan_dumpsVal x (lvl + 1) (d + 1) k (by omega),
      scan_dumpsItems xs (lvl + 1) (d + 1) k (by omega),
      show List.foldl scanStep ⟨d + 1, false, false, k⟩ ("\n").data =
        ⟨d + 1, false, false, k⟩ from scan_neutral_list _ (by decide) _ k,
      scan_indent lvl (d + 1) k,
      show List.foldl scanStep ⟨d + 1, false, false, k⟩ ("]").data =
        ⟨d, false, false, k⟩ from by
      rw [show ("]").data = [']'] from rfl, List.foldl_cons,
        scanStep_closeB (d + 1) k ']' (Or.inl rfl), List.foldl_nil]
      simp]
  | .dict [] =>
    show List.foldl scanStep _ ['\x7b', '\x7d'] = _
    rw [List.foldl_cons, scanStep_openB d k '\x7b' (Or.inr rfl), List.foldl_cons,
      scanStep_closeB (d + 1) k '\x7d' (Or.inr rfl)]
    rfl
  | .dict ((key, v) :: kvs) =>
    rw [dumpsVal]
    simp only [String.data_append, List.foldl_append]
    rw [show List.foldl scanStep ⟨d, false, false, k⟩ ("\x7b\n").data =
        ⟨d + 1, false, false, k⟩ from by
      rw [show ("\x7b\n").data = ['\x7b', '\n'] from rfl, List.foldl_cons,
        scanStep_openB d k '\x7b' (Or.inr rfl), List.foldl_cons,
        scanStep_out_neutral (d + 1) k '\n' (by decide)]
      rfl]
    rw [scan_indent (lvl + 1) (d + 1) k, scan_strLit key (d + 1) k,
      show List.foldl scanStep ⟨d + 1, false, false, k⟩ (": ").data =
        ⟨d + 1, false, false, k⟩ from scan_neutral_list _ (by decide) _ k,
      scan_dumpsVal v (lvl + 1) (d + 1) k (by omega),
      scan_dumpsFields kvs (lvl + 1) (d + 1) k (by omega),
      show List.foldl scanStep ⟨d + 1, false, false, k⟩ ("\n").data =
        ⟨d + 1, false, false, k⟩ from scan_neutral_list _ (by decide) _ k,
      scan_indent lvl (d + 1) k,
      show List.foldl scanStep ⟨d + 1, false, false, k⟩ ("\x7d").data =
        ⟨d, false, false, k⟩ from by
      rw [show ("\x7d").data = ['\x7d'] from rfl, List.foldl_cons,
        scanStep_closeB (d + 1) k '\x7d' (Or.inr rfl), List.foldl_nil]
      simp]

theorem scan_dumpsItems (xs : List PyVal) (lvl d k : Nat) (hd : 2 ≤ d) :
    List.foldl scanStep ⟨d, false, false, k⟩ (dumpsItems lvl xs).data =
      ⟨d, false, false, k⟩ := by
  match xs with
  | [] => rfl
  | x :: xs =>
    rw [dumpsItems]
    simp only [String.data_append, List.foldl_append]
    rw [show List.foldl scanStep ⟨d, false, false, k⟩ (",\n").data =
        ⟨d, false, false, k⟩ from by
      rw [show (",\n").data = [',', '\n'] from rfl, List.foldl_cons,
        scanStep_comma_deep d k (by omega), List.foldl_cons,
        scanStep_out_neutral d k '\n' (by decide)]
      rfl]
    rw [scan_indent lvl d k, scan_dumpsVal x lvl d k (by omega),
      scan_dumpsItems xs lvl d k hd]

theorem scan_dumpsFields (kvs : List (String × PyVal)) (lvl d k : Nat) (hd : 2 ≤ d) :
    List.foldl scanStep ⟨d, false, false, k⟩ (dumpsFields lvl kvs).data =
      ⟨d, false, false, k⟩ := by
  match kvs with
  | [] => rfl
  | (key, v) :: kvs =>
    rw [dumpsFields]
    simp only [String.data_append, List.foldl_append]
    rw [show List.foldl scanStep ⟨d, false, false, k⟩ (",\n").data =
        ⟨d, false, false, k⟩ from by
      rw [show (",\n").data = [',', '\n'] from rfl, List.foldl_cons,
        scanStep_comma_deep d k (by omega), List.foldl_cons,
        scanStep_out_neutral d k '\n' (by decide)]
      rfl]
    rw [scan_indent lvl d k, scan_strLit key d k,
      show List.foldl scanStep ⟨d, false, false, k⟩ (": ").data =
        ⟨d, false, false, k⟩ from scan_neutral_list _ (by decide) d k,
      scan_dumpsVal v lvl d k (by omega), scan_dumpsFields kvs lvl d k hd]

end

theorem scan_dumpsItems_one (xs : List PyVal) (lvl k : Nat) :
    List.foldl scanStep ⟨1, false, false, k⟩ (dumpsItems lvl xs).data =
      ⟨1, false, false, k + xs.length⟩ := by
  induction xs generalizing k with
  | nil => rfl
  | cons x xs ih =>
    rw [dumpsItems]
    simp only [String.data_append, List.foldl_append]
    rw [show List.foldl scanStep ⟨1, false, false, k⟩ (",\n").data =
        ⟨1, false, false, k + 1⟩ from by
      rw [show (",\n").data = [',', '\n'] from rfl, List.foldl_cons,
        scanStep_comma_one k, List.foldl_cons,
        scanStep_out_neutral 1 (k + 1) '\n' (by decide)]
      rfl]
    rw [scan_indent lvl 1 (k + 1), scan_dumpsVal x lvl 1 (k + 1) (by omega), ih (k + 1)]
    simp only [List.length_cons]
    congr 1
    omega

theorem scanJson_dumps_cons (x : PyVal) (xs : List PyVal) :
    scanJson (dumpsVal 0 (.list (x :: xs))).data = ⟨0, false, false, xs.length⟩ := by
  rw [scanJson, dumpsVal]
  simp only [String.data_append, List.foldl_append]
  rw [show List.foldl scanStep ⟨0, false, false, 0⟩ ("[\n").data =
      ⟨1, false, false, 0⟩ from by
    rw [show ("[\n").data = ['[', '\n'] from rfl, List.foldl_cons,
      scanStep_openB 0 0 '[' (Or.inl rfl), List.foldl_cons,
      scanStep_out_neutral 1 0 '\n' (by decide)]
    rfl]
  rw [scan_indent 1 1 0, scan_dumpsVal x 1 1 0 (by omega), scan_dumpsItems_one xs 1 0,
    show List.foldl scanStep ⟨1, false, false, 0 + xs.length⟩ ("\n").data =
      ⟨1, false, false, 0 + xs.length⟩ from scan_neutral_list _ (by decide) _ _,
    scan_indent 0 1 (0 + xs.length),
    show List.foldl scanStep ⟨1, false, false, 0 + xs.length⟩ ("]").data =
      ⟨0, false, false, 0 + xs.length⟩ from by
    rw [show ("]").data = [']'] from rfl, List.foldl_cons,
      scanStep_closeB 1 (0 + xs.length) ']' (Or.inl rfl), List.foldl_nil]]
  simp

theorem digit_facts2 : ∀ m, m < 10 →
    isJsonWs (Nat.digitChar m) = false ∧ ¬ Nat.digitChar m = ']' ∧
      ¬ Nat.digitChar m = '[' := by decide

/-- The first character of a serialized value: never whitespace, never a
closing bracket, and an opening `[` exactly for lists. -/
theorem dumpsVal_head (lvl : Nat) (v : PyVal) :
    ∃ c cs, (dumpsVal lvl v).data = c :: cs ∧ isJsonWs c = false ∧ ¬ c = ']' ∧
      ((∃ xs, v = .list xs) ∨ ¬ c = '[') := by
  match v with
  | .none => exact ⟨'n', _, rfl, by decide, by decide, Or.inr (by decide)⟩
  | .bool true => exact ⟨'t', _, rfl, by decide, by decide, Or.inr (by decide)⟩
  | .bool false => exact ⟨'f', _, rfl, by decide, by decide, Or.inr (by decide)⟩
  | .date y m dd => exact ⟨'n', _, rfl, by decide, by decide, Or.inr (by decide)⟩
  | .time h mi sec micro => exact ⟨'n', _, rfl, by decide, by decide, Or.inr (by decide)⟩
  | .datetime y mo dd h mi sec micro =>
    exact ⟨'n', _, rfl, by decide, by decide, Or.inr (by decide)⟩
  | .str s =>
    exact ⟨'"', _, rfl, by decide, by decide, Or.inr (by decide)⟩
  | .list [] => exact ⟨'[', [']'], rfl, by decide, by decide, Or.inl ⟨[], rfl⟩⟩
  | .list (x :: xs) =>
    refine ⟨'[', '\n' :: ((indentStr (lvl + 1)).data ++ ((dumpsVal (lvl + 1) x).data ++
      ((dumpsItems (lvl + 1) xs).data ++ ('\n' :: ((indentStr lvl).data ++ [']']))))),
      ?_, by decide, by decide, Or.inl ⟨x :: xs, rfl⟩⟩
    rw [dumpsVal]
    simp [String.data_append]
  | .dict [] => exact ⟨'\x7b', ['\x7d'], rfl, by decide, by decide, Or.inr (by decide)⟩
  | .dict ((key, v) :: kvs) =>
    refine ⟨'\x7b', '\n' :: ((indentStr (lvl + 1)).data ++ ((strLit key).data ++
      ((": ").data ++ ((dumpsVal (lvl + 1) v).data ++ ((dumpsFields (lvl + 1) kvs).data ++
        ('\n' :: ((indentStr lvl).data ++ ['\x7d']))))))),
      ?_, by decide, by decide, Or.inr (by decide)⟩
    rw [dumpsVal]
    simp [String.data_append]
  | .int n =>
    rw [show dumpsVal lvl (.int n) = intRepr n from rfl, intRepr]
    split_ifs with hneg
    · exact ⟨'-', natDigitsN n.natAbs, by simp [String.data_append, natRepr], by decide,
        by decide, Or.inr (by decide)⟩
    · obtain ⟨m, cs, hm, hdig⟩ := natDigitsN_head_digit n.natAbs
      obtain ⟨hws, hrb, hlb⟩ := digit_facts2 m hm
      exact ⟨Nat.digitChar m, cs, by simp [natRepr, hdig], hws, hrb, Or.inr hlb⟩

theorem dropWhile_replicate_space (n : Nat) (rest : List Char) :
    List.dropWhile isJsonWs (List.replicate n ' ' ++ rest) =
      List.dropWhile isJsonWs rest := by
  induction n with
  | zero => simp
  | succ m ih =>
    rw [List.replicate_succ, List.cons_append, List.dropWhile_cons]
    simp only [show isJsonWs ' ' = true from rfl, if_true]
    exact ih

/-- `len(json.loads(payload))` on the serialization of a list: exactly the
number of elements. -/
theorem pyLoadsTopLen_dumps_list (xs : List PyVal) :
    pyLoadsTopLen (dumpsVal 0 (.list xs)) = .ok xs.length := by
  match xs with
  | [] => rfl
  | x :: xs =>
    have hdata : (dumpsVal 0 (.list (x :: xs))).data =
        '[' :: '\n' :: ((indentStr 1).data ++ ((dumpsVal 1 x).data ++
          ((dumpsItems 1 xs).data ++ ('\n' :: ((indentStr 0).data ++ (']' :: [])))))) := by
      rw [dumpsVal]
      simp [String.data_append]
    have hhead : (dumpsVal 0 (.list (x :: xs))).data.head? = some '[' := by
      rw [hdata]
      rfl
    have hscan := scanJson_dumps_cons x xs
    obtain ⟨c, cs, hc, hws, hrb, _⟩ := dumpsVal_head 1 x
    have hdrop : (((dumpsVal 0 (.list (x :: xs))).data.drop 1).dropWhile isJsonWs).head? =
        some c := by
      rw [hdata]
      simp only [List.drop_succ_cons, List.drop_zero]
      rw [List.dropWhile_cons]
      simp only [show isJsonWs '\n' = true from rfl, if_true]
      rw [show (indentStr 1).data = List.replicate 2 ' ' from rfl,
        dropWhile_replicate_space, hc, List.cons_append, List.dropWhile_cons, hws]
      simp
    simp only [pyLoadsTopLen, hhead, hscan, hdrop]
    simp [hrb]

theorem length_mk (cs : List Char) : (String.mk cs).length = cs.length := rfl

theorem startsWithBracket_dumps_list (xs : List PyVal) :
    startsWithBracket (dumpsVal 0 (.list xs)) = true := by
  match xs with
  | [] => rfl
  | x :: xs =>
    rw [startsWithBracket, dumpsVal]
    simp [String.data_append]

/-- The overflow report of an enforcer result, when there is one. -/
def overflowReportOf : Except Unit BudgetDecision → Option OverflowReport
  | .ok (.overflow r) => some r
  | _ => Option.none

/-- C1 (amended): for every context and every payload that either does not
start with `[` or is the JSON serialization of a value (the only payloads
the plugins construct), the enforcer passes the payload through unchanged
iff `ceil(len/3) ≤ 5000`, and otherwise replaces it by an OverflowReport
whose `estimated_tokens` equals `ceil(len/3)` (characterized by the two
inequalities below) and whose `token_limit` equals 5000.  (For an
over-budget payload that starts with `[` but is not valid JSON, the
enforcer instead propagates the `json.loads` exception — see the
counterexample.) -/
theorem c1_enforce_token_limit (payload context : String)
    (hshape : startsWithBracket payload = false ∨
      ∃ v, jsonSafe v = true ∧ payload = dumpsVal 0 v) :
    (enforce_token_limit payload context = .ok (.pass payload) ↔
      estimate_token_count payload ≤ TOKEN_LIMIT) ∧
    (TOKEN_LIMIT < estimate_token_count payload →
      ∃ r, enforce_token_limit payload context = .ok (.overflow r) ∧
        r.estimated_tokens = estimate_token_count payload ∧
        payload.length ≤ 3 * r.estimated_tokens ∧
        3 * r.estimated_tokens < payload.length + 3 ∧
        r.token_limit = 5000) := by
  have hover : TOKEN_LIMIT < estimate_token_count payload →
      ∃ r, enforce_token_limit payload context = .ok (.overflow r) ∧
        r.estimated_tokens = estimate_token_count payload ∧
        payload.length ≤ 3 * r.estimated_tokens ∧
        3 * r.estimated_tokens < payload.length + 3 ∧
        r.token_limit = 5000 := by
    intro hgt
    have hle' : ¬ estimate_token_count payload ≤ TOKEN_LIMIT := by omega
    have hceil1 : payload.length ≤ 3 * estimate_token_count payload := by
      rw [estimate_token_count]
      omega
    have hceil2 : 3 * estimate_token_count payload < payload.length + 3 := by
      rw [estimate_token_count]
      omega
    have hcase : startsWithBracket payload = false ∨
        ∃ xs : List PyVal, payload = dumpsVal 0 (.list xs) := by
      rcases hshape with hnb | ⟨v, hsafe, rfl⟩
      · exact Or.inl hnb
      · by_cases hl : ∃ xs, v = PyVal.list xs
        · obtain ⟨xs, rfl⟩ := hl
          exact Or.inr ⟨xs, rfl⟩
        · obtain ⟨c, cs, hc, _, _, hor⟩ := dumpsVal_head 0 v
          rcases hor with hxs | hnc
          · exact absurd hxs hl
          · refine Or.inl ?_
            rw [startsWithBracket, hc]
            simp [hnc]
    rcases hcase with hnb | ⟨xs, rfl⟩
    · refine ⟨⟨"Result exceeds token budget", context, estimate_token_count payload,
        TOKEN_LIMIT, Option.none, Option.none,
        some (suggestionText Option.none)⟩, ?_, rfl, hceil1, hceil2, rfl⟩
      rw [enforce_token_limit]
      simp only [if_neg hle', hnb, Bool.false_eq_true, if_false]
      rfl
    · refine ⟨⟨"Result exceeds token budget", context,
        estimate_token_count (dumpsVal 0 (.list xs)),
        TOKEN_LIMIT, some xs.length,
        (if xs.length ≠ 0 then
          some (suggestedLimitFloat xs.length (estimate_token_count (dumpsVal 0 (.list xs))))
          else Option.none),
        some (suggestionText (if xs.length ≠ 0 then
          some (suggestedLimitFloat xs.length (estimate_token_count (dumpsVal 0 (.list xs))))
          else Option.none))⟩, ?_, rfl, hceil1, hceil2, rfl⟩
      rw [enforce_token_limit]
      simp only [if_neg hle', startsWithBracket_dumps_list xs, if_true,
        pyLoadsTopLen_dumps_list xs]
      rfl
  constructor
  · constructor
    · intro hp
      by_contra hgt
      obtain ⟨r, hr, _⟩ := hover (by omega)
      rw [hp] at hr
      simp at hr
    · intro hle
      rw [enforce_token_limit]
      simp only [if_pos hle]
  · exact hover

/-- An over-budget payload (15001 characters) that does not start with
`[`. -/
def bigPlainPayload : String := String.mk (List.replicate 15001 'x')

/-- An over-budget payload that starts with `[` but never closes the
bracket: not valid JSON, so `json.loads` raises on it. -/
def bigBadArrayPayload : String := String.mk ('[' :: List.replicate 15000 'x')

/-- An over-budget payload that is valid JSON: an empty array padded with
15000 spaces between its brackets (`json.loads` yields `[]`). -/
def bigEmptyArrayPayload : String :=
  String.mk ('[' :: (List.replicate 15000 ' ' ++ [']']))

theorem replicate_all_neutral (n : Nat) (c : Char) (h : scanNeutral c = true) :
    (List.replicate n c).all scanNeutral = true := by
  rw [List.all_eq_true]
  intro x hx
  rw [List.eq_of_mem_replicate hx]
  exact h

theorem bigPlainPayload_est : estimate_token_count bigPlainPayload = 5001 := by
  rw [bigPlainPayload, estimate_token_count, length_mk, List.length_replicate]

theorem bigPlainPayload_nb : startsWithBracket bigPlainPayload = false := by
  rw [bigPlainPayload, startsWithBracket,
    show (String.mk (List.replicate 15001 'x')).data.head? = some 'x' from rfl]
  rfl

/-- C1 witness: a 15001-character payload without a leading bracket is
replaced by a report with `estimated_tokens = 5001` and
`token_limit = 5000`. -/
theorem c1_enforce_token_limit_witness :
    ∃ r, enforce_token_limit bigPlainPayload "get_schema" = .ok (.overflow r) ∧
      r.estimated_tokens = estimate_token_count bigPlainPayload ∧
      bigPlainPayload.length ≤ 3 * r.estimated_tokens ∧
      3 * r.estimated_tokens < bigPlainPayload.length + 3 ∧
      r.token_limit = 5000 :=
  (c1_enforce_token_limit bigPlainPayload "get_schema" (Or.inl bigPlainPayload_nb)).2
    (by rw [bigPlainPayload_est]; decide)

theorem bigBadArrayPayload_est : estimate_token_count bigBadArrayPayload = 5001 := by
  rw [bigBadArrayPayload, estimate_token_count, length_mk, List.length_cons,
    List.length_replicate]

theorem bigBadArrayPayload_scan :
    scanJson bigBadArrayPayload.data = ⟨1, false, false, 0⟩ := by
  rw [bigBadArrayPayload, scanJson,
    show (String.mk ('[' :: List.replicate 15000 'x')).data =
      '[' :: List.replicate 15000 'x' from rfl,
    List.foldl_cons, scanStep_openB 0 0 '[' (Or.inl rfl)]
  exact scan_neutral_list _ (replicate_all_neutral 15000 'x' (by decide)) 1 0

/-- C1 counterexample: on an over-budget payload that starts with `[` but
is not valid JSON, the enforcer does not return a serialized
OverflowReport — the `json.loads` call raises and the exception
propagates. -/
theorem c1_enforce_token_limit_counterexample :
    TOKEN_LIMIT < estimate_token_count bigBadArrayPayload ∧
    startsWithBracket bigBadArrayPayload = true ∧
    enforce_token_limit bigBadArrayPayload "query_parquet_files" = .error () := by
  refine ⟨by rw [bigBadArrayPayload_est]; decide, rfl, ?_⟩
  have hloads : pyLoadsTopLen bigBadArrayPayload = .error () := by
    rw [pyLoadsTopLen]
    simp only [bigBadArrayPayload_scan]
    rw [if_pos (show bigBadArrayPayload.data.head? = some '[' from rfl),
      if_pos (Or.inl (by decide : (1 : Nat) ≠ 0))]
  rw [enforce_token_limit]
  simp only [if_neg (by rw [bigBadArrayPayload_est]; decide :
    ¬ estimate_token_count bigBadArrayPayload ≤ TOKEN_LIMIT)]
  rw [show startsWithBracket bigBadArrayPayload = true from rfl]
  simp only [if_true, hloads]
  rfl

/-- C4 (amended): when the enforcer replaces an over-budget payload that is
the serialization of a JSON array, `rows_returned` is the element count
`n`; for `n ≥ 1`, `suggested_limit` is
`max(1, int(n * (5000/estimated_tokens) * 0.8))` as evaluated in IEEE-754
double arithmetic (`suggestedLimitFloat`, a bit-exact model of the
source's computation); for `n = 0` the truthiness test `if current_size:`
leaves `suggested_limit` null.  For an over-budget payload not starting
with `[`, both fields are null. -/
theorem c4_overflow_report_fields (xs : List PyVal) (context : String)
    (_hsafe : jsonSafeItems xs = true)
    (hover : TOKEN_LIMIT < estimate_token_count (dumpsVal 0 (.list xs))) :
    (∃ r, enforce_token_limit (dumpsVal 0 (.list xs)) context = .ok (.overflow r) ∧
      r.rows_returned = some xs.length ∧
      (xs.length ≠ 0 → r.suggested_limit =
        some (suggestedLimitFloat xs.length
          (estimate_token_count (dumpsVal 0 (.list xs))))) ∧
      (xs.length = 0 → r.suggested_limit = Option.none)) ∧
    (∀ payload ctx2 : String, startsWithBracket payload = false →
      TOKEN_LIMIT < estimate_token_count payload →
      ∃ r, enforce_token_limit payload ctx2 = .ok (.overflow r) ∧
        r.rows_returned = Option.none ∧ r.suggested_limit = Option.none) := by
  constructor
  · refine ⟨⟨"Result exceeds token budget", context,
      estimate_token_count (dumpsVal 0 (.list xs)),
      TOKEN_LIMIT, some xs.length,
      (if xs.length ≠ 0 then
        some (suggestedLimitFloat xs.length (estimate_token_count (dumpsVal 0 (.list xs))))
        else Option.none),
      some (suggestionText (if xs.length ≠ 0 then
        some (suggestedLimitFloat xs.length (estimate_token_count (dumpsVal 0 (.list xs))))
        else Option.none))⟩, ?_, rfl, ?_, ?_⟩
    · rw [enforce_token_limit]
      simp only [if_neg (by omega :
        ¬ estimate_token_count (dumpsVal 0 (.list xs)) ≤ TOKEN_LIMIT),
        startsWithBracket_dumps_list xs, if_true, pyLoadsTopLen_dumps_list xs]
      rfl
    · intro hne
      simp only [if_pos hne]
    · intro hz
      simp only [if_neg (by omega : ¬ xs.length ≠ 0)]
  · intro payload ctx2 hnb hgt
    refine ⟨⟨"Result exceeds token budget", ctx2, estimate_token_count payload,
      TOKEN_LIMIT, Option.none, Option.none, some (suggestionText Option.none)⟩,
      ?_, rfl, rfl⟩
    rw [enforce_token_limit]
    simp only [if_neg (by omega : ¬ estimate_token_count payload ≤ TOKEN_LIMIT),
      hnb, Bool.false_eq_true, if_false]
    rfl

/-- A 15000-character string row, making a one-element array exceed the
budget. -/
def bigRow : PyVal := .str (String.mk (List.replicate 15000 'a'))

theorem escChar_a : escChar 'a' = ['a'] := by decide

theorem flatMap_escChar_replicate_a (n : Nat) :
    (List.replicate n 'a').flatMap escChar = List.replicate n 'a' := by
  induction n with
  | zero => rfl
  | succ m ih =>
    rw [List.replicate_succ, List.flatMap_cons, escChar_a, ih]
    rfl

theorem bigRow_dumps_len :
    (dumpsVal 0 (.list [bigRow])).length = 15008 := by
  rw [show dumpsVal 0 (.list [bigRow]) =
    "[\n" ++ indentStr 1 ++ dumpsVal 1 bigRow ++ dumpsItems 1 [] ++ "\n" ++
      indentStr 0 ++ "]" from rfl]
  rw [show dumpsVal 1 bigRow = strLit (String.mk (List.replicate 15000 'a')) from rfl,
    strLit]
  simp only [String.length_append]
  rw [show (String.mk ((String.mk (List.replicate 15000 'a')).data.flatMap escChar)).length
      = 15000 from by
    rw [show (String.mk (List.replicate 15000 'a')).data = List.replicate 15000 'a'
      from rfl, flatMap_escChar_replicate_a, length_mk, List.length_replicate]]
  rfl

theorem bigRow_over :
    TOKEN_LIMIT < estimate_token_count (dumpsVal 0 (.list [bigRow])) := by
  rw [estimate_token_count, bigRow_dumps_len]
  decide

/-- C4 witness: a one-element array of one 15000-character string; the
replacement report carries `rows_returned = 1` and the suggested limit
formula. -/
theorem c4_overflow_report_fields_witness :
    (∃ r, enforce_token_limit (dumpsVal 0 (.list [bigRow])) "query_parquet_files" =
        .ok (.overflow r) ∧
      r.rows_returned = some ([bigRow] : List PyVal).length ∧
      (([bigRow] : List PyVal).length ≠ 0 → r.suggested_limit =
        some (suggestedLimitFloat ([bigRow] : List PyVal).length
          (estimate_token_count (dumpsVal 0 (.list [bigRow]))))) ∧
      (([bigRow] : List PyVal).length = 0 → r.suggested_limit = Option.none)) ∧
    (∀ payload ctx2 : String, startsWithBracket payload = false →
      TOKEN_LIMIT < estimate_token_count payload →
      ∃ r, enforce_token_limit payload ctx2 = .ok (.overflow r) ∧
        r.rows_returned = Option.none ∧ r.suggested_limit = Option.none) :=
  c4_overflow_report_fields [bigRow] "query_parquet_files" rfl bigRow_over

theorem bigEmptyArrayPayload_est : estimate_token_count bigEmptyArrayPayload = 5001 := by
  rw [bigEmptyArrayPayload, estimate_token_count, length_mk, List.length_cons,
    List.length_append, List.length_replicate]
  rfl

theorem bigEmptyArrayPayload_scan :
    scanJson bigEmptyArrayPayload.data = ⟨0, false, false, 0⟩ := by
  rw [bigEmptyArrayPayload, scanJson,
    show (String.mk ('[' :: (List.replicate 15000 ' ' ++ [']']))).data =
      '[' :: (List.replicate 15000 ' ' ++ [']']) from rfl,
    List.foldl_cons, scanStep_openB 0 0 '[' (Or.inl rfl), List.foldl_append,
    scan_neutral_list _ (replicate_all_neutral 15000 ' ' (by decide)) 1 0,
    List.foldl_cons, scanStep_closeB 1 0 ']' (Or.inl rfl), List.foldl_nil]

theorem bigEmptyArrayPayload_loads : pyLoadsTopLen bigEmptyArrayPayload = .ok 0 := by
  rw [pyLoadsTopLen]
  simp only [bigEmptyArrayPayload_scan]
  rw [if_pos (show bigEmptyArrayPayload.data.head? = some '[' from rfl),
    if_neg (by simp), if_pos]
  rw [show bigEmptyArrayPayload.data.drop 1 = List.replicate 15000 ' ' ++ [']'] from rfl,
    dropWhile_replicate_space]
  rfl

/-- C4 counterexample: an over-budget payload that parses as a JSON array
of zero elements (15000 spaces between the brackets).  The claim's formula
demands `suggested_limit = max(1, floor(0 · ...)) = 1`, but the code's
truthiness test `if current_size:` treats the parsed length 0 as falsy and
leaves `suggested_limit` null. -/
theorem c4_overflow_report_fields_counterexample :
    estimate_token_count bigEmptyArrayPayload = 5001 ∧
    pyLoadsTopLen bigEmptyArrayPayload = .ok 0 ∧
    enforce_token_limit bigEmptyArrayPayload "query_parquet_files" = .ok (.overflow
      { error := "Result exceeds token budget", context := "query_parquet_files",
        estimated_tokens := 5001, token_limit := 5000, rows_returned := some 0,
        suggested_limit := Option.none,
        suggestion := some (suggestionText Option.none) }) ∧
    max 1 (4000 * 0 / 5001) = 1 ∧
    (Option.none : Option Nat) ≠ some (max 1 (4000 * 0 / 5001)) := by
  refine ⟨bigEmptyArrayPayload_est, bigEmptyArrayPayload_loads, ?_, by decide, by decide⟩
  rw [enforce_token_limit]
  simp only [if_neg (by rw [bigEmptyArrayPayload_est]; decide :
    ¬ estimate_token_count bigEmptyArrayPayload ≤ TOKEN_LIMIT)]
  rw [show startsWithBracket bigEmptyArrayPayload = true from rfl]
  simp only [if_true, bigEmptyArrayPayload_loads]
  rw [show estimate_token_count bigEmptyArrayPayload = 5001 from bigEmptyArrayPayload_est]
  rfl
